import Mathlib

set_option maxHeartbeats 2000000
set_option maxRecDepth 8000

/-!
Verification of the product-comparator repository.

The repository consists of three Python files:
  - main.py ........ tier-B pipeline: preprocess, six normalized field
                     extractors, a graded comparator (exact, fuzzy, semantic,
                     mismatch), and an LLM fallback orchestrator;
  - iter1.py ....... tier-A pipeline: ordered regex rule table FIELD_RULES,
                     first-match-wins extraction, report building over a
                     generic aspect order;
  - final ig.py .... tier-A pipeline with a curated per-pair aspect order.

The Python regular expressions are embedded through a small executable
matching engine with the search semantics of the Python re module:
leftmost starting position wins, and at a fixed starting position the
backtracking order is greedy (longest first for star and bounded repetition,
present first for option, left branch first for alternation).
-/

namespace Rex

/-- Whitespace characters of the Python regex class backslash-s and of the
default str.strip, restricted to the ASCII range actually reachable here. -/
def wsChar (c : Char) : Bool :=
  c == ' ' || c == '\t' || c == '\n' || c == '\r' || c == '\x0b' || c == '\x0c'

/-- Word characters of the Python regex class backslash-w (ASCII fragment). -/
def wordChar (c : Char) : Bool :=
  c.isAlpha || c.isDigit || c == '_'

/-- Characters matched by the regex dot: everything except a newline. -/
def dotChar (c : Char) : Bool :=
  c != '\n'

/-- Abstract syntax of the regular-expression fragment used by the
repository: single-character classes, concatenation, alternation, greedy
option, greedy star over a character class, capture groups, backreferences,
word boundaries and multiline anchors. -/
inductive RE where
  | eps
  | cls (p : Char → Bool)
  | seq (a b : RE)
  | alt (a b : RE)
  | opt (a : RE)
  | starCls (p : Char → Bool)
  | grp (n : Nat) (a : RE)
  | bref (n : Nat)
  | bound
  | bol
  | eol

/-- Literal character, exact case (patterns compiled without IGNORECASE). -/
def lit (c : Char) : RE := .cls (fun d => d == c)

/-- Literal character under the IGNORECASE flag. -/
def litCI (c : Char) : RE := .cls (fun d => d.toLower == c.toLower)

/-- Concatenation of a list of expressions. -/
def catList (l : List RE) : RE := l.foldr .seq .eps

/-- Literal string, exact case. -/
def strE (w : String) : RE := catList (w.data.map lit)

/-- Literal string under the IGNORECASE flag. -/
def strCI (w : String) : RE := catList (w.data.map litCI)

/-- Greedy plus over a character class. -/
def plusCls (p : Char → Bool) : RE := .seq (.cls p) (.starCls p)

/-- Result of a successful regex search: start of the match, end of the
match, and the recorded capture-group spans (most recent first). -/
structure MRes where
  ms : Nat
  me : Nat
  mg : List (Nat × Nat × Nat)
  deriving DecidableEq, Repr

/-- Look up the span of capture group n (latest write wins). -/
def getG (g : List (Nat × Nat × Nat)) (n : Nat) : Option (Nat × Nat) :=
  match g.find? (fun x => x.1 == n) with
  | some x => some x.2
  | none => none

/-- Record the span of capture group n. -/
def setG (g : List (Nat × Nat × Nat)) (n a b : Nat) : List (Nat × Nat × Nat) :=
  (n, a, b) :: g

/-- Length of the maximal run of class characters at the front of a list. -/
def runLen (p : Char → Bool) : List Char → Nat
  | [] => 0
  | c :: r => if p c then runLen p r + 1 else 0

/-- Greedy backtracking driver for star: try consuming m characters first,
then m - 1, down to zero. -/
def tryFrom (k : Nat → List (Nat × Nat × Nat) → Option MRes)
    (g : List (Nat × Nat × Nat)) (i : Nat) : Nat → Option MRes
  | 0 => k i g
  | Nat.succ m =>
    match k (i + (m + 1)) g with
    | some r => some r
    | none => tryFrom k g i m

/-- Case-insensitive literal word match starting at position i, returning
the end position on success (used for backreferences). -/
def matchStrAt (s : List Char) : List Char → Nat → Option Nat
  | [], i => some i
  | c :: r, i =>
    match s.get? i with
    | some d => if d.toLower == c.toLower then matchStrAt s r (i + 1) else none
    | none => none

/-- Whether the character before position i is a word character. -/
def prevWord (s : List Char) (i : Nat) : Bool :=
  match i with
  | 0 => false
  | Nat.succ j =>
    match s.get? j with
    | some c => wordChar c
    | none => false

/-- Whether the character at position i is a word character. -/
def curWord (s : List Char) (i : Nat) : Bool :=
  match s.get? i with
  | some c => wordChar c
  | none => false

/-- Word-boundary test of the regex metacharacter backslash-b. -/
def boundary (s : List Char) (i : Nat) : Bool :=
  prevWord s i != curWord s i

/-- Multiline begin-of-line test for the caret anchor. -/
def bolAt (s : List Char) (i : Nat) : Bool :=
  match i with
  | 0 => true
  | Nat.succ j => s.get? j == some '\n'

/-- Multiline end-of-line test for the dollar anchor. -/
def eolAt (s : List Char) (i : Nat) : Bool :=
  i == s.length || s.get? i == some '\n'

/-- Backtracking matcher in continuation-passing style. The continuation
receives the position after the expression and the capture record; trying
alternatives in the order of the Python engine makes the first returned
result the one Python returns. -/
def mat (s : List Char) : RE → Nat → List (Nat × Nat × Nat) →
    (Nat → List (Nat × Nat × Nat) → Option MRes) → Option MRes
  | .eps, i, g, k => k i g
  | .cls p, i, g, k =>
    match s.get? i with
    | some c => if p c then k (i + 1) g else none
    | none => none
  | .seq a b, i, g, k => mat s a i g (fun j g2 => mat s b j g2 k)
  | .alt a b, i, g, k =>
    match mat s a i g k with
    | some r => some r
    | none => mat s b i g k
  | .opt a, i, g, k =>
    match mat s a i g k with
    | some r => some r
    | none => k i g
  | .starCls p, i, g, k => tryFrom k g i (runLen p (s.drop i))
  | .grp n a, i, g, k => mat s a i g (fun j g2 => k j (setG g2 n i j))
  | .bref n, i, g, k =>
    match getG g n with
    | some x =>
      match matchStrAt s ((s.drop x.1).take (x.2 - x.1)) i with
      | some j => k j g
      | none => none
    | none => none
  | .bound, i, g, k => if boundary s i then k i g else none
  | .bol, i, g, k => if bolAt s i then k i g else none
  | .eol, i, g, k => if eolAt s i then k i g else none

/-- Attempt to match the pattern at a fixed starting position. -/
def matAt (r : RE) (s : List Char) (i : Nat) : Option MRes :=
  mat s r i [] (fun j g => some ⟨i, j, g⟩)

/-- Scan of starting positions i, i + 1, ..., i + fuel, first hit wins. -/
def searchAux (r : RE) (s : List Char) : Nat → Nat → Option MRes
  | 0, i => matAt r s i
  | Nat.succ m, i =>
    match matAt r s i with
    | some res => some res
    | none => searchAux r s m (i + 1)

/-- Embedding of re.search: try every starting position from the left and
return the first match found. -/
def reSearch (r : RE) (s : List Char) : Option MRes :=
  searchAux r s s.length 0

/-- Declarative matching relation: the expression matches the slice of s
from position i to position j. Backreferences are deliberately not covered;
the relation is used only for backreference-free patterns. -/
inductive Matches (s : List Char) : RE → Nat → Nat → Prop where
  | eps (i : Nat) : Matches s .eps i i
  | cls {p : Char → Bool} {i : Nat} {c : Char} :
      s.get? i = some c → p c = true → Matches s (.cls p) i (i + 1)
  | seq {a b : RE} {i j k : Nat} :
      Matches s a i j → Matches s b j k → Matches s (.seq a b) i k
  | altL {a b : RE} {i j : Nat} : Matches s a i j → Matches s (.alt a b) i j
  | altR {a b : RE} {i j : Nat} : Matches s b i j → Matches s (.alt a b) i j
  | optSome {a : RE} {i j : Nat} : Matches s a i j → Matches s (.opt a) i j
  | optNone (a : RE) (i : Nat) : Matches s (.opt a) i i
  | starNil (p : Char → Bool) (i : Nat) : Matches s (.starCls p) i i
  | starCons {p : Char → Bool} {i j : Nat} {c : Char} :
      s.get? i = some c → p c = true → Matches s (.starCls p) (i + 1) j →
      Matches s (.starCls p) i j
  | grp {n : Nat} {a : RE} {i j : Nat} :
      Matches s a i j → Matches s (.grp n a) i j
  | bound {i : Nat} : boundary s i = true → Matches s .bound i i
  | bol {i : Nat} : bolAt s i = true → Matches s .bol i i
  | eol {i : Nat} : eolAt s i = true → Matches s .eol i i

/-- Backreference-free patterns, for which the declarative relation is
complete. -/
def brFree : RE → Bool
  | .eps => true
  | .cls _ => true
  | .seq a b => brFree a && brFree b
  | .alt a b => brFree a && brFree b
  | .opt a => brFree a
  | .starCls _ => true
  | .grp _ a => brFree a
  | .bref _ => false
  | .bound => true
  | .bol => true
  | .eol => true


/-- Inversion for the empty pattern. -/
theorem matches_eps_iff {s : List Char} {i j : Nat} :
    Matches s .eps i j ↔ j = i := by
  constructor
  · intro h; cases h; rfl
  · rintro rfl; exact .eps _

/-- Inversion for a single-character class. -/
theorem matches_cls_iff {s : List Char} {p : Char → Bool} {i j : Nat} :
    Matches s (.cls p) i j ↔ ∃ c, s.get? i = some c ∧ p c = true ∧ j = i + 1 := by
  constructor
  · intro h; cases h with
    | cls hc hp => exact ⟨_, hc, hp, rfl⟩
  · rintro ⟨c, hc, hp, rfl⟩; exact .cls hc hp

/-- Inversion for concatenation. -/
theorem matches_seq_iff {s : List Char} {a b : RE} {i k : Nat} :
    Matches s (.seq a b) i k ↔ ∃ j, Matches s a i j ∧ Matches s b j k := by
  constructor
  · intro h; cases h with
    | seq h1 h2 => exact ⟨_, h1, h2⟩
  · rintro ⟨j, h1, h2⟩; exact .seq h1 h2

/-- Inversion for alternation. -/
theorem matches_alt_iff {s : List Char} {a b : RE} {i j : Nat} :
    Matches s (.alt a b) i j ↔ Matches s a i j ∨ Matches s b i j := by
  constructor
  · intro h; cases h with
    | altL h => exact Or.inl h
    | altR h => exact Or.inr h
  · rintro (h | h)
    · exact .altL h
    · exact .altR h

/-- Inversion for the greedy option. -/
theorem matches_opt_iff {s : List Char} {a : RE} {i j : Nat} :
    Matches s (.opt a) i j ↔ Matches s a i j ∨ j = i := by
  constructor
  · intro h; cases h with
    | optSome h => exact Or.inl h
    | optNone => exact Or.inr rfl
  · rintro (h | rfl)
    · exact .optSome h
    · exact .optNone _ _

/-- Inversion for a capture group. -/
theorem matches_grp_iff {s : List Char} {n : Nat} {a : RE} {i j : Nat} :
    Matches s (.grp n a) i j ↔ Matches s a i j := by
  constructor
  · intro h; cases h with
    | grp h => exact h
  · exact .grp

/-- Inversion for the word boundary. -/
theorem matches_bound_iff {s : List Char} {i j : Nat} :
    Matches s .bound i j ↔ boundary s i = true ∧ j = i := by
  constructor
  · intro h; cases h with
    | bound hb => exact ⟨hb, rfl⟩
  · rintro ⟨hb, rfl⟩; exact .bound hb

/-- Inversion for the begin-of-line anchor. -/
theorem matches_bol_iff {s : List Char} {i j : Nat} :
    Matches s .bol i j ↔ bolAt s i = true ∧ j = i := by
  constructor
  · intro h; cases h with
    | bol hb => exact ⟨hb, rfl⟩
  · rintro ⟨hb, rfl⟩; exact .bol hb

/-- Inversion for the end-of-line anchor. -/
theorem matches_eol_iff {s : List Char} {i j : Nat} :
    Matches s .eol i j ↔ eolAt s i = true ∧ j = i := by
  constructor
  · intro h; cases h with
    | eol hb => exact ⟨hb, rfl⟩
  · rintro ⟨hb, rfl⟩; exact .eol hb

/-- Dropping up to a valid index exposes the indexed element as the head. -/
theorem drop_eq_cons_get {α : Type} (s : List α) (i : Nat) (c : α)
    (h : s.get? i = some c) : s.drop i = c :: s.drop (i + 1) := by
  induction s generalizing i with
  | nil => simp at h
  | cons a t ih =>
    cases i with
    | zero => simp_all
    | succ m =>
      simp only [List.get?_cons_succ] at h
      simpa using ih m h

/-- Star matching consumes a prefix of the maximal class run. -/
theorem matches_star_bound {s : List Char} {p : Char → Bool} :
    ∀ (r : RE) (i j : Nat), Matches s r i j → r = RE.starCls p →
      i ≤ j ∧ j - i ≤ runLen p (s.drop i) := by
  intro r i j h
  induction h with
  | starNil q i3 =>
    intro hr
    injection hr with hq
    subst hq
    exact ⟨Nat.le_refl _, by omega⟩
  | starCons hc hp htail ih =>
    intro hr
    injection hr with hq
    subst hq
    rcases ih rfl with ⟨h1, h2⟩
    rw [drop_eq_cons_get _ _ _ hc, runLen, if_pos hp]
    omega
  | eps i3 => intro hr; exact absurd hr (by simp)
  | cls hc hp => intro hr; exact absurd hr (by simp)
  | seq h1 h2 ih1 ih2 => intro hr; exact absurd hr (by simp)
  | altL h1 ih1 => intro hr; exact absurd hr (by simp)
  | altR h1 ih1 => intro hr; exact absurd hr (by simp)
  | optSome h1 ih1 => intro hr; exact absurd hr (by simp)
  | optNone a2 i3 => intro hr; exact absurd hr (by simp)
  | grp h1 ih1 => intro hr; exact absurd hr (by simp)
  | bound hb => intro hr; exact absurd hr (by simp)
  | bol hb => intro hr; exact absurd hr (by simp)
  | eol hb => intro hr; exact absurd hr (by simp)

/-- Any prefix of the maximal class run is star-matchable. -/
theorem matches_star_of_le {s : List Char} {p : Char → Bool} :
    ∀ (d i : Nat), d ≤ runLen p (s.drop i) → Matches s (.starCls p) i (i + d) := by
  intro d
  induction d with
  | zero => intro i _; exact .starNil p i
  | succ m ih =>
    intro i h3
    cases hc : s.get? i with
    | none =>
      exfalso
      have hlen : s.length ≤ i := List.get?_eq_none.mp hc
      rw [List.drop_eq_nil_of_le hlen] at h3
      simp [runLen] at h3
    | some c =>
      rw [drop_eq_cons_get _ _ _ hc, runLen] at h3
      by_cases hp : p c = true
      · rw [if_pos hp] at h3
        have h5 := ih (i + 1) (by omega)
        have h6 : i + 1 + m = i + (m + 1) := by omega
        exact .starCons hc hp (h6 ▸ h5)
      · rw [if_neg hp] at h3; omega

/-- Star matches exactly the prefixes of the maximal class run. -/
theorem matches_star_iff {s : List Char} {p : Char → Bool} {i j : Nat} :
    Matches s (.starCls p) i j ↔ i ≤ j ∧ j - i ≤ runLen p (s.drop i) := by
  constructor
  · intro h; exact matches_star_bound _ i j h rfl
  · rintro ⟨h1, h2⟩
    have h3 := matches_star_of_le (j - i) i h2
    have h4 : i + (j - i) = j := by omega
    exact h4 ▸ h3

/-- The greedy star driver succeeds exactly when some admissible consumption
length lets the continuation succeed. -/
theorem tryFrom_isSome {k : Nat → List (Nat × Nat × Nat) → Option MRes}
    {g : List (Nat × Nat × Nat)} {i : Nat} :
    ∀ m, (tryFrom k g i m).isSome = true ↔
      ∃ t, t ≤ m ∧ (k (i + t) g).isSome = true := by
  intro m
  induction m with
  | zero =>
    simp only [tryFrom]
    constructor
    · intro h; exact ⟨0, Nat.le_refl _, h⟩
    · rintro ⟨t, ht, h⟩
      have he : t = 0 := by omega
      subst he
      exact h
  | succ m ih =>
    cases hk : k (i + (m + 1)) g with
    | some r =>
      simp only [tryFrom, hk]
      constructor
      · intro _; exact ⟨m + 1, Nat.le_refl _, by rw [hk]; rfl⟩
      · intro _; rfl
    | none =>
      simp only [tryFrom, hk]
      rw [ih]
      constructor
      · rintro ⟨t, ht, h⟩; exact ⟨t, by omega, h⟩
      · rintro ⟨t, ht, h⟩
        refine ⟨t, ?_, h⟩
        by_cases h2 : t ≤ m
        · exact h2
        · exfalso
          have he : t = m + 1 := by omega
          subst he
          rw [hk] at h
          simp at h

/-- Soundness of the greedy star driver. -/
theorem tryFrom_sound {k : Nat → List (Nat × Nat × Nat) → Option MRes}
    {g : List (Nat × Nat × Nat)} {i : Nat} {res : MRes} :
    ∀ m, tryFrom k g i m = some res → ∃ t, t ≤ m ∧ k (i + t) g = some res := by
  intro m
  induction m with
  | zero =>
    intro h
    exact ⟨0, Nat.le_refl _, h⟩
  | succ m ih =>
    intro h
    cases hk : k (i + (m + 1)) g with
    | some r =>
      simp only [tryFrom, hk] at h
      exact ⟨m + 1, Nat.le_refl _, by rw [hk, h]⟩
    | none =>
      simp only [tryFrom, hk] at h
      rcases ih h with ⟨t, ht, h2⟩
      exact ⟨t, by omega, h2⟩

/-- Continuations whose success is independent of the capture record. -/
def KOb (k : Nat → List (Nat × Nat × Nat) → Option MRes) : Prop :=
  ∀ j g1 g2, (k j g1).isSome = (k j g2).isSome

/-- Operational success coincides with declarative matchability followed by
continuation success, for backreference-free patterns and capture-oblivious
continuations. -/
theorem mat_isSome_iff {s : List Char} :
    ∀ r : RE, brFree r = true → ∀ i g k, KOb k →
      ((mat s r i g k).isSome = true ↔
        ∃ j, Matches s r i j ∧ (k j g).isSome = true) := by
  intro r
  induction r with
  | eps =>
    intro _ i g k _
    simp only [mat]
    constructor
    · intro h; exact ⟨i, .eps i, h⟩
    · rintro ⟨j, hm, hs⟩
      rw [matches_eps_iff.mp hm] at hs
      exact hs
  | cls p =>
    intro _ i g k _
    cases hc : s.get? i with
    | none =>
      simp only [mat, hc]
      constructor
      · intro h; simp at h
      · rintro ⟨j, hm, _⟩
        rcases matches_cls_iff.mp hm with ⟨c, hc2, _, _⟩
        rw [hc] at hc2
        exact absurd hc2 (by simp)
    | some c =>
      simp only [mat, hc]
      by_cases hp : p c = true
      · rw [if_pos hp]
        constructor
        · intro h; exact ⟨i + 1, matches_cls_iff.mpr ⟨c, hc, hp, rfl⟩, h⟩
        · rintro ⟨j, hm, hs⟩
          rcases matches_cls_iff.mp hm with ⟨c2, hc2, hp2, rfl⟩
          exact hs
      · rw [if_neg hp]
        constructor
        · intro h; simp at h
        · rintro ⟨j, hm, hs⟩
          rcases matches_cls_iff.mp hm with ⟨c2, hc2, hp2, rfl⟩
          rw [hc] at hc2
          injection hc2 with he
          exact absurd (he ▸ hp2) hp
  | seq a b iha ihb =>
    intro hbr i g k hk
    simp only [brFree, Bool.and_eq_true] at hbr
    have hob : KOb (fun j g2 => mat s b j g2 k) := by
      intro j g1 g2
      rw [Bool.eq_iff_iff, ihb hbr.2 j g1 k hk, ihb hbr.2 j g2 k hk]
      constructor
      · rintro ⟨j2, hm, hs⟩; exact ⟨j2, hm, (hk j2 g2 g1).symm ▸ hs⟩
      · rintro ⟨j2, hm, hs⟩; exact ⟨j2, hm, (hk j2 g1 g2).symm ▸ hs⟩
    rw [show mat s (.seq a b) i g k = mat s a i g (fun j g2 => mat s b j g2 k) from rfl]
    rw [iha hbr.1 i g _ hob]
    constructor
    · rintro ⟨j, hma, hs⟩
      rcases (ihb hbr.2 j g k hk).mp hs with ⟨j2, hmb, hs2⟩
      exact ⟨j2, .seq hma hmb, hs2⟩
    · rintro ⟨j2, hm, hs⟩
      rcases matches_seq_iff.mp hm with ⟨j, hma, hmb⟩
      exact ⟨j, hma, (ihb hbr.2 j g k hk).mpr ⟨j2, hmb, hs⟩⟩
  | alt a b iha ihb =>
    intro hbr i g k hk
    simp only [brFree, Bool.and_eq_true] at hbr
    cases ha : mat s a i g k with
    | some r =>
      simp only [mat, ha]
      constructor
      · intro _
        have h2 : (mat s a i g k).isSome = true := by rw [ha]; rfl
        rcases (iha hbr.1 i g k hk).mp h2 with ⟨j, hm, hs⟩
        exact ⟨j, .altL hm, hs⟩
      · intro _; rfl
    | none =>
      simp only [mat, ha]
      rw [ihb hbr.2 i g k hk]
      constructor
      · rintro ⟨j, hm, hs⟩; exact ⟨j, .altR hm, hs⟩
      · rintro ⟨j, hm, hs⟩
        rcases matches_alt_iff.mp hm with h | h
        · exfalso
          have h2 : (mat s a i g k).isSome = true :=
            (iha hbr.1 i g k hk).mpr ⟨j, h, hs⟩
          rw [ha] at h2; simp at h2
        · exact ⟨j, h, hs⟩
  | opt a iha =>
    intro hbr i g k hk
    simp only [brFree] at hbr
    cases ha : mat s a i g k with
    | some r =>
      simp only [mat, ha]
      constructor
      · intro _
        have h2 : (mat s a i g k).isSome = true := by rw [ha]; rfl
        rcases (iha hbr i g k hk).mp h2 with ⟨j, hm, hs⟩
        exact ⟨j, .optSome hm, hs⟩
      · intro _; rfl
    | none =>
      simp only [mat, ha]
      constructor
      · intro hs; exact ⟨i, .optNone _ _, hs⟩
      · rintro ⟨j, hm, hs⟩
        rcases matches_opt_iff.mp hm with h | rfl
        · exfalso
          have h2 : (mat s a i g k).isSome = true :=
            (iha hbr i g k hk).mpr ⟨j, h, hs⟩
          rw [ha] at h2; simp at h2
        · exact hs
  | starCls p =>
    intro _ i g k _
    rw [show mat s (.starCls p) i g k = tryFrom k g i (runLen p (s.drop i)) from rfl]
    rw [tryFrom_isSome]
    constructor
    · rintro ⟨t, ht, hs⟩
      exact ⟨i + t, matches_star_iff.mpr ⟨by omega, by omega⟩, hs⟩
    · rintro ⟨j, hm, hs⟩
      rcases matches_star_iff.mp hm with ⟨h1, h2⟩
      refine ⟨j - i, by omega, ?_⟩
      have h3 : i + (j - i) = j := by omega
      rw [h3]
      exact hs
  | grp n a iha =>
    intro hbr i g k hk
    simp only [brFree] at hbr
    have hob : KOb (fun j g2 => k j (setG g2 n i j)) := by
      intro j g1 g2; exact hk j (setG g1 n i j) (setG g2 n i j)
    rw [show mat s (.grp n a) i g k = mat s a i g (fun j g2 => k j (setG g2 n i j)) from rfl]
    rw [iha hbr i g _ hob]
    constructor
    · rintro ⟨j, hm, hs⟩
      exact ⟨j, .grp hm, (hk j (setG g n i j) g) ▸ hs⟩
    · rintro ⟨j, hm, hs⟩
      exact ⟨j, matches_grp_iff.mp hm, (hk j g (setG g n i j)) ▸ hs⟩
  | bref n =>
    intro hbr
    simp [brFree] at hbr
  | bound =>
    intro _ i g k _
    simp only [mat]
    by_cases hb : boundary s i = true
    · rw [if_pos hb]
      constructor
      · intro h; exact ⟨i, .bound hb, h⟩
      · rintro ⟨j, hm, hs⟩
        rcases matches_bound_iff.mp hm with ⟨_, rfl⟩
        exact hs
    · rw [if_neg hb]
      constructor
      · intro h; simp at h
      · rintro ⟨j, hm, hs⟩
        rcases matches_bound_iff.mp hm with ⟨hb2, rfl⟩
        exact absurd hb2 hb
  | bol =>
    intro _ i g k _
    simp only [mat]
    by_cases hb : bolAt s i = true
    · rw [if_pos hb]
      constructor
      · intro h; exact ⟨i, .bol hb, h⟩
      · rintro ⟨j, hm, hs⟩
        rcases matches_bol_iff.mp hm with ⟨_, rfl⟩
        exact hs
    · rw [if_neg hb]
      constructor
      · intro h; simp at h
      · rintro ⟨j, hm, hs⟩
        rcases matches_bol_iff.mp hm with ⟨hb2, rfl⟩
        exact absurd hb2 hb
  | eol =>
    intro _ i g k _
    simp only [mat]
    by_cases hb : eolAt s i = true
    · rw [if_pos hb]
      constructor
      · intro h; exact ⟨i, .eol hb, h⟩
      · rintro ⟨j, hm, hs⟩
        rcases matches_eol_iff.mp hm with ⟨_, rfl⟩
        exact hs
    · rw [if_neg hb]
      constructor
      · intro h; simp at h
      · rintro ⟨j, hm, hs⟩
        rcases matches_eol_iff.mp hm with ⟨hb2, rfl⟩
        exact absurd hb2 hb

/-- Every operational success of a backreference-free pattern decomposes
into a declarative match followed by a continuation success. -/
theorem mat_sound {s : List Char} :
    ∀ r : RE, brFree r = true → ∀ i g k res, mat s r i g k = some res →
      ∃ j g2, Matches s r i j ∧ k j g2 = some res := by
  intro r
  induction r with
  | eps =>
    intro _ i g k res h
    exact ⟨i, g, .eps i, h⟩
  | cls p =>
    intro _ i g k res h
    cases hc : s.get? i with
    | none =>
      simp only [mat, hc] at h
      exact absurd h (by simp)
    | some c =>
      simp only [mat, hc] at h
      by_cases hp : p c = true
      · rw [if_pos hp] at h
        exact ⟨i + 1, g, .cls hc hp, h⟩
      · rw [if_neg hp] at h
        exact absurd h (by simp)
  | seq a b iha ihb =>
    intro hbr i g k res h
    simp only [brFree, Bool.and_eq_true] at hbr
    rw [show mat s (.seq a b) i g k = mat s a i g (fun j g2 => mat s b j g2 k) from rfl] at h
    rcases iha hbr.1 i g _ res h with ⟨j, g2, hma, h2⟩
    rcases ihb hbr.2 j g2 k res h2 with ⟨j2, g3, hmb, h3⟩
    exact ⟨j2, g3, .seq hma hmb, h3⟩
  | alt a b iha ihb =>
    intro hbr i g k res h
    simp only [brFree, Bool.and_eq_true] at hbr
    cases ha : mat s a i g k with
    | some r =>
      simp only [mat, ha] at h
      rcases iha hbr.1 i g k r ha with ⟨j, g2, hm, h2⟩
      exact ⟨j, g2, .altL hm, by rw [h2, h]⟩
    | none =>
      simp only [mat, ha] at h
      rcases ihb hbr.2 i g k res h with ⟨j, g2, hm, h2⟩
      exact ⟨j, g2, .altR hm, h2⟩
  | opt a iha =>
    intro hbr i g k res h
    simp only [brFree] at hbr
    cases ha : mat s a i g k with
    | some r =>
      simp only [mat, ha] at h
      rcases iha hbr i g k r ha with ⟨j, g2, hm, h2⟩
      exact ⟨j, g2, .optSome hm, by rw [h2, h]⟩
    | none =>
      simp only [mat, ha] at h
      exact ⟨i, g, .optNone _ _, h⟩
  | starCls p =>
    intro _ i g k res h
    rw [show mat s (.starCls p) i g k = tryFrom k g i (runLen p (s.drop i)) from rfl] at h
    rcases tryFrom_sound _ h with ⟨t, ht, h2⟩
    exact ⟨i + t, g, matches_star_iff.mpr ⟨by omega, by omega⟩, h2⟩
  | grp n a iha =>
    intro hbr i g k res h
    simp only [brFree] at hbr
    rw [show mat s (.grp n a) i g k = mat s a i g (fun j g2 => k j (setG g2 n i j)) from rfl] at h
    rcases iha hbr i g _ res h with ⟨j, g2, hm, h2⟩
    exact ⟨j, setG g2 n i j, .grp hm, h2⟩
  | bref n =>
    intro hbr
    simp [brFree] at hbr
  | bound =>
    intro _ i g k res h
    simp only [mat] at h
    by_cases hb : boundary s i = true
    · rw [if_pos hb] at h
      exact ⟨i, g, .bound hb, h⟩
    · rw [if_neg hb] at h
      exact absurd h (by simp)
  | bol =>
    intro _ i g k res h
    simp only [mat] at h
    by_cases hb : bolAt s i = true
    · rw [if_pos hb] at h
      exact ⟨i, g, .bol hb, h⟩
    · rw [if_neg hb] at h
      exact absurd h (by simp)
  | eol =>
    intro _ i g k res h
    simp only [mat] at h
    by_cases hb : eolAt s i = true
    · rw [if_pos hb] at h
      exact ⟨i, g, .eol hb, h⟩
    · rw [if_neg hb] at h
      exact absurd h (by simp)

/-- Matching at a fixed position succeeds exactly on declarative matches. -/
theorem matAt_isSome_iff {r : RE} (hbr : brFree r = true) (s : List Char)
    (i : Nat) : (matAt r s i).isSome = true ↔ ∃ j, Matches s r i j := by
  unfold matAt
  rw [mat_isSome_iff r hbr i [] (fun j g => some ⟨i, j, g⟩) (fun _ _ _ => rfl)]
  simp

/-- Span soundness: a successful anchored match starts where requested and
ends at a declaratively matching position. -/
theorem matAt_span {r : RE} (hbr : brFree r = true) {s : List Char} {i : Nat}
    {res : MRes} (h : matAt r s i = some res) :
    res.ms = i ∧ Matches s r i res.me := by
  unfold matAt at h
  rcases mat_sound r hbr i [] _ res h with ⟨j, g2, hm, h2⟩
  cases h2
  exact ⟨rfl, hm⟩

/-- Span and group soundness for a pattern that is one top-level capture
group: the recorded group span is the whole match and the body matches that
span declaratively. -/
theorem matAt_grp_span {n : Nat} {body : RE} (hbr : brFree body = true)
    {s : List Char} {i : Nat} {res : MRes}
    (h : matAt (.grp n body) s i = some res) :
    res.ms = i ∧ getG res.mg n = some (i, res.me) ∧ Matches s body i res.me := by
  unfold matAt at h
  rw [show mat s (.grp n body) i [] (fun j g => some ⟨i, j, g⟩) =
    mat s body i [] (fun j g2 => some ⟨i, j, setG g2 n i j⟩) from rfl] at h
  rcases mat_sound body hbr i [] _ res h with ⟨j, g2, hm, h2⟩
  cases h2
  refine ⟨rfl, ?_, hm⟩
  simp [getG, setG, List.find?]

/-- Search soundness: any result arises from some starting offset inside
the fuel window. -/
theorem searchAux_sound {r : RE} {s : List Char} :
    ∀ fuel i res, searchAux r s fuel i = some res →
      ∃ t, t ≤ fuel ∧ matAt r s (i + t) = some res := by
  intro fuel
  induction fuel with
  | zero =>
    intro i res h
    exact ⟨0, Nat.le_refl _, by rw [Nat.add_zero]; exact h⟩
  | succ m ih =>
    intro i res h
    rw [show searchAux r s (m + 1) i =
      (match matAt r s i with
       | some res2 => some res2
       | none => searchAux r s m (i + 1)) from rfl] at h
    cases ha : matAt r s i with
    | some r2 =>
      rw [ha] at h
      have h2 : (some r2 : Option MRes) = some res := h
      exact ⟨0, by omega, by rw [Nat.add_zero, ha]; exact h2⟩
    | none =>
      rw [ha] at h
      have h2 : searchAux r s m (i + 1) = some res := h
      rcases ih (i + 1) res h2 with ⟨t, ht, h3⟩
      refine ⟨t + 1, by omega, ?_⟩
      have he : i + (t + 1) = i + 1 + t := by omega
      rw [he]
      exact h3

/-- Search completeness: a hit anywhere inside the fuel window makes the
whole search succeed. -/
theorem searchAux_isSome {r : RE} {s : List Char} :
    ∀ fuel i, (∃ t, t ≤ fuel ∧ (matAt r s (i + t)).isSome = true) →
      (searchAux r s fuel i).isSome = true := by
  intro fuel
  induction fuel with
  | zero =>
    rintro i ⟨t, ht, h⟩
    have he : t = 0 := by omega
    subst he
    rw [Nat.add_zero] at h
    exact h
  | succ m ih =>
    rintro i ⟨t, ht, h⟩
    rw [show searchAux r s (m + 1) i =
      (match matAt r s i with
       | some res2 => some res2
       | none => searchAux r s m (i + 1)) from rfl]
    cases ha : matAt r s i with
    | some r2 => rfl
    | none =>
      have hs : (searchAux r s m (i + 1)).isSome = true := by
        cases t with
        | zero =>
          rw [Nat.add_zero, ha] at h
          simp at h
        | succ t2 =>
          refine ih (i + 1) ⟨t2, by omega, ?_⟩
          have he : i + 1 + t2 = i + (t2 + 1) := by omega
          rw [he]
          exact h
      exact hs

/-- Search finds a match whenever one exists at a position inside the text. -/
theorem reSearch_isSome_of {r : RE} {s : List Char} {i : Nat}
    (h1 : i ≤ s.length) (h2 : (matAt r s i).isSome = true) :
    (reSearch r s).isSome = true :=
  searchAux_isSome s.length 0 ⟨i, h1, by simpa using h2⟩

/-- Any search result arises from an anchored match at a position inside
the text. -/
theorem reSearch_sound {r : RE} {s : List Char} {res : MRes}
    (h : reSearch r s = some res) :
    ∃ i, i ≤ s.length ∧ matAt r s i = some res := by
  rcases searchAux_sound s.length 0 res h with ⟨t, ht, h2⟩
  exact ⟨t, ht, by simpa using h2⟩

/-- Search succeeds exactly when the pattern declaratively matches starting
at some position inside the text. -/
theorem reSearch_isSome_iff {r : RE} (hbr : brFree r = true) (s : List Char) :
    (reSearch r s).isSome = true ↔ ∃ i j, i ≤ s.length ∧ Matches s r i j := by
  constructor
  · intro h
    rcases Option.isSome_iff_exists.mp h with ⟨res, hres⟩
    rcases reSearch_sound hres with ⟨i, hi, h2⟩
    rcases (matAt_isSome_iff hbr s i).mp (by rw [h2]; rfl) with ⟨j, hj⟩
    exact ⟨i, j, hi, hj⟩
  · rintro ⟨i, j, hi, hj⟩
    exact reSearch_isSome_of hi ((matAt_isSome_iff hbr s i).mpr ⟨j, hj⟩)

end Rex

namespace MainPy

open Rex

/-- Python str.lower over the character list (ASCII data). -/
def pyLower (l : List Char) : List Char := l.map Char.toLower

/-- Python str.upper over the character list (ASCII data). -/
def pyUpper (l : List Char) : List Char := l.map Char.toUpper

/-- Python str.strip with the default whitespace set. -/
def pyStrip (l : List Char) : List Char :=
  ((l.dropWhile wsChar).reverse.dropWhile wsChar).reverse

/-- Replacement of every underscore by a space. -/
def replUnderscore (l : List Char) : List Char :=
  l.map (fun c => if c = '_' then ' ' else c)

/-- Left-to-right non-overlapping replacement of the colon-hyphen pair by a
single colon, as str.replace performs it. -/
def replColonDash : List Char → List Char
  | ':' :: '-' :: r => ':' :: replColonDash r
  | c :: r => c :: replColonDash r
  | [] => []

/-- Replacement of every semicolon by a semicolon followed by a space. -/
def replSemi : List Char → List Char
  | ';' :: r => ';' :: ' ' :: replSemi r
  | c :: r => c :: replSemi r
  | [] => []

/-- Embedding of preprocess: lowercase, strip, then the three replacements
in source order. -/
def preprocess (l : List Char) : List Char :=
  replSemi (replColonDash (replUnderscore (pyStrip (pyLower l))))

/-- Decimal digit class. -/
def digitC : Char → Bool := Char.isDigit

/-- Character class of whitespace or underscore. -/
def wsUnd (c : Char) : Bool := wsChar c || c == '_'

/-- Body of the grade pattern: fe, an optional whitespace-or-underscore,
500, an optional d; or a word-bounded 43; or a word-bounded 53. -/
def gradeBody : RE :=
  .alt (catList [lit 'f', lit 'e', .opt (.cls wsUnd), lit '5', lit '0', lit '0',
    .opt (lit 'd')])
    (.alt (catList [.bound, lit '4', lit '3', .bound])
      (catList [.bound, lit '5', lit '3', .bound]))

/-- Grade pattern: the whole alternation is capture group 1. -/
def gradePat : RE := .grp 1 gradeBody

/-- One to three digits, greedy longest first. -/
def digits13 : RE :=
  .seq (.cls digitC) (.opt (.seq (.cls digitC) (.opt (.cls digitC))))

/-- Four to five digits, greedy longest first. -/
def digits45 : RE :=
  .seq (.cls digitC) (.seq (.cls digitC) (.seq (.cls digitC)
    (.seq (.cls digitC) (.opt (.cls digitC)))))

/-- Optional dot followed by any further digits (the decimal tail). -/
def numTail : RE := .seq (.opt (lit '.')) (.starCls digitC)

/-- Diameter pattern: captured 1-3 digits with decimal tail, optional
whitespace, then the literal mm. -/
def diamPat : RE :=
  .seq (.grp 1 (.seq digits13 numTail))
    (.seq (.opt (.cls wsChar)) (.seq (lit 'm') (lit 'm')))

/-- Length pattern: captured 4-5 digits with decimal tail, optional
whitespace, then the literal mm. -/
def lenPat : RE :=
  .seq (.grp 1 (.seq digits45 numTail))
    (.seq (.opt (.cls wsChar)) (.seq (lit 'm') (lit 'm')))

/-- Standard pattern: is, optional whitespace, exactly four digits. -/
def stdPat : RE :=
  catList [lit 'i', lit 's', .opt (.cls wsChar),
    .cls digitC, .cls digitC, .cls digitC, .cls digitC]

/-- Characters of the slice from a to b. -/
def sliceCh (s : List Char) (a b : Nat) : List Char := (s.drop a).take (b - a)

/-- Characters of capture group 1 of a search result. -/
def group1Ch (s : List Char) (res : MRes) : List Char :=
  match getG res.mg 1 with
  | some x => sliceCh s x.1 x.2
  | none => []

/-- List prefix test used by the containment scan. -/
def isPreOf : List Char → List Char → Bool
  | [], _ => true
  | _ :: _, [] => false
  | c :: w, d :: t => c == d && isPreOf w t

/-- Containment of w at some position of the list. -/
def containsList (w : List Char) : List Char → Bool
  | [] => w.isEmpty
  | d :: t => isPreOf w (d :: t) || containsList w t

/-- Substring containment, the Python in operator on strings. -/
def containsStr (t : List Char) (w : String) : Bool := containsList w.data t

/-- Integer and fractional digit parts of a decimal literal. -/
def splitDec (l : List Char) : List Char × List Char :=
  (l.takeWhile (fun c => c != '.'), (l.dropWhile (fun c => c != '.')).drop 1)

/-- Value of a digit list read in base ten. -/
def digitsVal (l : List Char) : Nat :=
  l.foldl (fun a c => a * 10 + (c.toNat - 48)) 0

/-- Rounding of the fractional digits to two places with round half to
even, mirroring how the .2f float format renders the decimal values that
are reachable here (every value the theorems touch needs no rounding at
all, so the binary representation error of Python floats is immaterial). -/
def round2 (frac : List Char) : Nat :=
  let c := digitsVal ((frac ++ ['0', '0']).take 2)
  let t := frac.drop 2
  let d3 := t.headD '0'
  let restNZ := (t.drop 1).any (fun c2 => c2 != '0')
  if d3 > '5' || (d3 == '5' && restNZ) then c + 1
  else if d3 == '5' && !restNZ then (if c % 2 = 1 then c + 1 else c)
  else c

/-- Two-decimal rendering of a decimal digit literal, as the Python
f-string .2f format renders float of that literal. -/
def format2f (l : List Char) : String :=
  let parts := splitDec l
  let total := digitsVal parts.1 * 100 + round2 parts.2
  toString (total / 100) ++ "." ++
    (if total % 100 < 10 then "0" else "") ++ toString (total % 100)

/-- Embedding of extract_grade: search, then group(1).upper() with spaces
removed. -/
def extract_grade (t : List Char) : Option String :=
  match reSearch gradePat t with
  | some m => some (String.mk ((pyUpper (group1Ch t m)).filter (fun c => c != ' ')))
  | none => none

/-- Embedding of extract_diameter: search, then two-decimal formatting of
group 1 with the mm suffix. -/
def extract_diameter (t : List Char) : Option String :=
  match reSearch diamPat t with
  | some m => some (format2f (group1Ch t m) ++ " mm")
  | none => none

/-- Embedding of extract_material: keyword containment in source order. -/
def extract_material (t : List Char) : Option String :=
  if containsStr t "opc" then some "OPC"
  else if containsStr t "tmt" then some "TMT"
  else if containsStr t "strand" || containsStr t "lrpc" then some "PC Strand"
  else none

/-- Embedding of extract_form: keyword containment in source order. -/
def extract_form (t : List Char) : Option String :=
  if containsStr t "bulk" || containsStr t "loose" then some "Loose"
  else if containsStr t "straight" then some "Straight bars"
  else if containsStr t "bag" then some "Bag"
  else none

/-- Embedding of extract_length: search, then two-decimal formatting of
group 1 with the mm suffix. -/
def extract_length (t : List Char) : Option String :=
  match reSearch lenPat t with
  | some m => some (format2f (group1Ch t m) ++ " mm")
  | none => none

/-- Embedding of extract_standard: search, then group(0).upper(). -/
def extract_standard (t : List Char) : Option String :=
  match reSearch stdPat t with
  | some m => some (String.mk (pyUpper (sliceCh t m.ms m.me)))
  | none => none

/-- Match statuses produced by compare_field (emoji labels dropped). -/
inductive MatchStatus where
  | notMentioned
  | exactMatch
  | fuzzyMatch
  | semanticMatch
  | mismatch
  deriving DecidableEq, Repr

/-- Python truthiness on an optional string: None and the empty string are
the falsy values; the comparator uses exactly this as its absence test. -/
def falsy : Option String → Bool
  | none => true
  | some s => s.isEmpty

/-- Underlying string of a value (read only under a truthiness guard). -/
def sval (v : Option String) : String := v.getD ""

/-- Embedding of semantic_match with the cosine-similarity oracle passed as
a function: guard on absent values first, then the 0.85 threshold. -/
def semantic_match (sim : String → String → ℚ) (v1 v2 : Option String) : Bool :=
  if falsy v1 || falsy v2 then false
  else decide (sim (sval v1) (sval v2) > 85 / 100)

/-- Embedding of compare_field with the fuzzy-ratio and similarity oracles
passed as functions; the status is returned with the two values passed
through unchanged, as in the source tuple. -/
def compare_field (fr sim : String → String → ℚ) (v1 v2 : Option String) :
    MatchStatus × Option String × Option String :=
  if falsy v1 && falsy v2 then (.notMentioned, v1, v2)
  else if v1 == v2 then (.exactMatch, v1, v2)
  else if !falsy v1 && !falsy v2 && decide (fr (sval v1) (sval v2) > 85) then
    (.fuzzyMatch, v1, v2)
  else if semantic_match sim v1 v2 then (.semanticMatch, v1, v2)
  else (.mismatch, v1, v2)

/-- Rendering of the specified tier priority, written from the words of the
specification: both absent gives Not Mentioned, equality gives Exact Match,
the fuzzy threshold on two present values gives Fuzzy Match, the semantic
threshold on two present values gives Semantic Match, everything else is a
Mismatch. Absent is the None marker. -/
def compare_field_spec (fr sim : String → String → ℚ) (v1 v2 : Option String) :
    MatchStatus :=
  if v1 = none ∧ v2 = none then .notMentioned
  else if v1 = v2 then .exactMatch
  else if v1 ≠ none ∧ v2 ≠ none ∧ fr (sval v1) (sval v2) > 85 then .fuzzyMatch
  else if v1 ≠ none ∧ v2 ≠ none ∧ sim (sval v1) (sval v2) > 85 / 100 then
    .semanticMatch
  else .mismatch

/-- Count of similarity-oracle invocations in one compare_field call,
following the control flow of the source: the fourth branch is evaluated
only when the first three fall through, and inside semantic_match the
absence guard returns False before any encoding happens. -/
def semCallCount (fr : String → String → ℚ) (v1 v2 : Option String) : Nat :=
  if falsy v1 && falsy v2 then 0
  else if v1 == v2 then 0
  else if !falsy v1 && !falsy v2 && decide (fr (sval v1) (sval v2) > 85) then 0
  else if falsy v1 || falsy v2 then 0
  else 1

/-- Aspect table of compare_strings in source order. -/
def aspects : List (String × (List Char → Option String)) :=
  [("Grade", extract_grade), ("Diameter", extract_diameter),
   ("Material", extract_material), ("Form", extract_form),
   ("Length", extract_length), ("Standard", extract_standard)]

/-- Rendering of a value in a result row: the dash sentinel replaces any
falsy value, as the expression v1 or "-" does. -/
def orDash (v : Option String) : String :=
  match v with
  | some s => if s.isEmpty then "-" else s
  | none => "-"

/-- Embedding of the comparison loop of compare_strings: extract every
aspect from both preprocessed inputs and compare field by field. -/
def compare_rows (fr sim : String → String → ℚ) (s1 s2 : List Char) :
    List (String × String × String × MatchStatus) :=
  aspects.map (fun af =>
    let v1 := af.2 (preprocess s1)
    let v2 := af.2 (preprocess s2)
    let r := compare_field fr sim v1 v2
    (af.1, orDash r.2.1, orDash r.2.2, r.1))

/-- Embedding of fields_missing: scan the rows for the dash sentinel on
either side. -/
def fields_missing (rs : List (String × String × String × MatchStatus)) : Bool :=
  rs.any (fun r => r.2.1 == "-" || r.2.2.1 == "-")

/-- Number of LLM fallback calls made by one compare_strings run: the call
site executes exactly once inside the fields_missing branch. -/
def llmCalls (fr sim : String → String → ℚ) (s1 s2 : List Char) : Nat :=
  if fields_missing (compare_rows fr sim s1 s2) then 1 else 0

/-- Reified behaviour of the HTTP completion endpoint as observed by
call_llm_groq: the post call may raise, the json decoding may raise, the
parsed body may lack the choices field, indexing a malformed choices value
may raise, or a well-shaped completion content is available. -/
inductive LLMResponse where
  | transportRaises (msg : String)
  | jsonRaises (msg : String)
  | noChoices
  | shapeRaises (msg : String)
  | content (text : String)

/-- Embedding of call_llm_groq over the reified endpoint behaviour: the
try block turns every raised exception into the failure string, and a
parsed body without the choices field returns the fixed failure string
instead of raising. -/
def call_llm_groq (resp : LLMResponse) : String :=
  match resp with
  | .transportRaises msg => "LLM call failed: " ++ msg
  | .jsonRaises msg => "LLM call failed: " ++ msg
  | .noChoices => "LLM call failed: Unexpected response structure"
  | .shapeRaises msg => "LLM call failed: " ++ msg
  | .content text => text

end MainPy

/-- Nonempty strings are not isEmpty. -/
theorem isEmpty_false_of_ne {s : String} (h : s ≠ "") : s.isEmpty = false := by
  cases hse : s.isEmpty
  · rfl
  · exact absurd ((String.isEmpty_iff s).mp hse) h

/-- C1: for every pair of values given to the tier-B comparator
compare_field, the match status follows the strict priority order of the
specification: both absent gives Not Mentioned, otherwise equality gives
Exact Match regardless of the oracle scores, otherwise two present values
with fuzzy ratio above 85 give Fuzzy Match, otherwise two present values
with similarity above 0.85 give Semantic Match, and everything else,
including exactly one side present, is a Mismatch. Values reaching the
comparator are extractor outputs, hence never the empty string, which the
hypotheses record. -/
theorem c1_compare_field_priority (fr sim : String → String → ℚ)
    (v1 v2 : Option String) (h1 : v1 ≠ some "") (h2 : v2 ≠ some "") :
    (MainPy.compare_field fr sim v1 v2).1 = MainPy.compare_field_spec fr sim v1 v2 := by
  cases v1 with
  | none =>
    cases v2 with
    | none =>
      simp [MainPy.compare_field, MainPy.compare_field_spec, MainPy.falsy]
    | some s2 =>
      have hs2 : s2.isEmpty = false := isEmpty_false_of_ne (fun he => h2 (by rw [he]))
      simp [MainPy.compare_field, MainPy.compare_field_spec, MainPy.falsy,
        MainPy.semantic_match, MainPy.sval, hs2]
  | some s1 =>
    have hs1 : s1.isEmpty = false := isEmpty_false_of_ne (fun he => h1 (by rw [he]))
    cases v2 with
    | none =>
      simp [MainPy.compare_field, MainPy.compare_field_spec, MainPy.falsy,
        MainPy.semantic_match, MainPy.sval, hs1]
    | some s2 =>
      have hs2 : s2.isEmpty = false := isEmpty_false_of_ne (fun he => h2 (by rw [he]))
      by_cases heq : s1 = s2
      · subst heq
        simp [MainPy.compare_field, MainPy.compare_field_spec, MainPy.falsy, hs1]
      · by_cases hfr : fr s1 s2 > 85
        · simp [MainPy.compare_field, MainPy.compare_field_spec, MainPy.falsy,
            MainPy.semantic_match, MainPy.sval, hs1, hs2, heq, hfr]
        · by_cases hsim : sim s1 s2 > 85 / 100
          · simp [MainPy.compare_field, MainPy.compare_field_spec, MainPy.falsy,
              MainPy.semantic_match, MainPy.sval, hs1, hs2, heq, hfr, hsim]
          · simp [MainPy.compare_field, MainPy.compare_field_spec, MainPy.falsy,
              MainPy.semantic_match, MainPy.sval, hs1, hs2, heq, hfr, hsim]

/-- Witness for C1 at two concrete present equal values and constant
oracles. -/
theorem c1_compare_field_priority_witness :
    (some "a" : Option String) ≠ some "" ∧
    (MainPy.compare_field (fun _ _ => 0) (fun _ _ => 0)
        (some "a") (some "a")).1 =
      MainPy.compare_field_spec (fun _ _ => 0) (fun _ _ => 0)
        (some "a") (some "a") :=
  ⟨by decide, c1_compare_field_priority (fun _ _ => 0) (fun _ _ => 0)
    (some "a") (some "a") (by decide) (by decide)⟩

/-- C3: the semantic oracle is never consulted when a value is absent or
when an earlier tier already decides: the invocation count of one
compare_field call is zero exactly when a value is falsy, the values are
equal, or the fuzzy tier fires; and whenever the count is zero the result
of compare_field is independent of the similarity oracle. -/
theorem c3_semantic_oracle_lazy (fr : String → String → ℚ)
    (v1 v2 : Option String) :
    (MainPy.semCallCount fr v1 v2 = 0 ↔
      (MainPy.falsy v1 = true ∨ MainPy.falsy v2 = true ∨ v1 = v2 ∨
        fr (MainPy.sval v1) (MainPy.sval v2) > 85)) ∧
    (MainPy.semCallCount fr v1 v2 = 0 →
      ∀ sim1 sim2, MainPy.compare_field fr sim1 v1 v2 =
        MainPy.compare_field fr sim2 v1 v2) := by
  constructor
  · constructor
    · intro h
      by_cases hf1 : MainPy.falsy v1 = true
      · exact Or.inl hf1
      by_cases hf2 : MainPy.falsy v2 = true
      · exact Or.inr (Or.inl hf2)
      by_cases heq : v1 = v2
      · exact Or.inr (Or.inr (Or.inl heq))
      refine Or.inr (Or.inr (Or.inr ?_))
      have hb1 : MainPy.falsy v1 = false := by
        simpa using hf1
      have hb2 : MainPy.falsy v2 = false := by
        simpa using hf2
      unfold MainPy.semCallCount at h
      by_cases hc3 : (!MainPy.falsy v1 && !MainPy.falsy v2 &&
          decide (fr (MainPy.sval v1) (MainPy.sval v2) > 85)) = true
      · simp only [Bool.and_eq_true, decide_eq_true_eq] at hc3
        exact hc3.2
      · rw [if_neg (by simp [hb1]), if_neg (by simp [heq]), if_neg hc3,
          if_neg (by simp [hb1, hb2])] at h
        exact absurd h one_ne_zero
    · intro hdisj
      unfold MainPy.semCallCount
      split_ifs with h1 h2 h3 h4
      any_goals rfl
      exfalso
      simp only [Bool.or_eq_true, not_or, Bool.not_eq_true] at h4
      rcases hdisj with h | h | h | h
      · rw [h] at h4; exact absurd h4.1 (by simp)
      · rw [h] at h4; exact absurd h4.2 (by simp)
      · exact h2 (by simp [h])
      · exact h3 (by simp [h4.1, h4.2, h])
  · intro h sim1 sim2
    unfold MainPy.semCallCount at h
    by_cases hc1 : (MainPy.falsy v1 && MainPy.falsy v2) = true
    · simp [MainPy.compare_field, hc1]
    · rw [if_neg hc1] at h
      by_cases hc2 : (v1 == v2) = true
      · simp [MainPy.compare_field, hc1, hc2]
      · rw [if_neg hc2] at h
        by_cases hc3 : (!MainPy.falsy v1 && !MainPy.falsy v2 &&
            decide (fr (MainPy.sval v1) (MainPy.sval v2) > 85)) = true
        · simp [MainPy.compare_field, hc1, hc2, hc3]
        · rw [if_neg hc3] at h
          have hg : (MainPy.falsy v1 || MainPy.falsy v2) = true := by
            by_cases hgg : (MainPy.falsy v1 || MainPy.falsy v2) = true
            · exact hgg
            · rw [if_neg hgg] at h
              exact absurd h one_ne_zero
          have hs1 : MainPy.semantic_match sim1 v1 v2 = false := by
            unfold MainPy.semantic_match
            rw [if_pos hg]
          have hs2 : MainPy.semantic_match sim2 v1 v2 = false := by
            unfold MainPy.semantic_match
            rw [if_pos hg]
          simp [MainPy.compare_field, hc1, hc2, hc3, hs1, hs2]

/-- Witness for C3 at a concrete pair with one side absent. -/
theorem c3_semantic_oracle_lazy_witness :
    MainPy.semCallCount (fun _ _ => 0) (some "x") none = 0 :=
  ((c3_semantic_oracle_lazy (fun _ _ => 0) (some "x") none).1).mpr
    (Or.inr (Or.inl (by decide)))

/-- C7: every failure behaviour of the LLM endpoint, a transport
exception, a non-JSON body, a body without the choices field, or a
malformed choices shape, is converted by call_llm_groq into a string that
begins with the failure marker instead of propagating as an exception. -/
theorem c7_llm_failures_contained :
    (∀ msg, ∃ rest, MainPy.call_llm_groq (.transportRaises msg) =
      "LLM call failed: " ++ rest) ∧
    (∀ msg, ∃ rest, MainPy.call_llm_groq (.jsonRaises msg) =
      "LLM call failed: " ++ rest) ∧
    (∃ rest, MainPy.call_llm_groq .noChoices = "LLM call failed: " ++ rest) ∧
    (∀ msg, ∃ rest, MainPy.call_llm_groq (.shapeRaises msg) =
      "LLM call failed: " ++ rest) :=
  ⟨fun msg => ⟨msg, rfl⟩, fun msg => ⟨msg, rfl⟩,
    ⟨"Unexpected response structure", by decide⟩, fun msg => ⟨msg, rfl⟩⟩

/-- Matching never moves the position backwards. -/
theorem Rex.matches_le {s : List Char} :
    ∀ {r : Rex.RE} {i j : Nat}, Rex.Matches s r i j → i ≤ j := by
  intro r i j h
  induction h with
  | eps => exact Nat.le_refl _
  | cls _ _ => omega
  | seq _ _ ih1 ih2 => omega
  | altL _ ih => exact ih
  | altR _ ih => exact ih
  | optSome _ ih => exact ih
  | optNone => exact Nat.le_refl _
  | starNil => exact Nat.le_refl _
  | starCons _ _ _ ih => omega
  | grp _ ih => exact ih
  | bound _ => exact Nat.le_refl _
  | bol _ => exact Nat.le_refl _
  | eol _ => exact Nat.le_refl _

/-- Unfolding of catList on a cons cell. -/
theorem Rex.matches_cat_cons {s : List Char} {e : Rex.RE} {rs : List Rex.RE}
    {i j : Nat} :
    Rex.Matches s (Rex.catList (e :: rs)) i j ↔
      ∃ m, Rex.Matches s e i m ∧ Rex.Matches s (Rex.catList rs) m j :=
  Rex.matches_seq_iff

/-- The first character of any gradeBody match is f, 4 or 5, and the match
is nonempty. -/
theorem MainPy.gradeBody_head {t : List Char} {i j : Nat}
    (h : Rex.Matches t MainPy.gradeBody i j) :
    i < j ∧ ∃ c, t.get? i = some c ∧ (c = 'f' ∨ c = '4' ∨ c = '5') := by
  rcases Rex.matches_alt_iff.mp h with hA | hBC
  · rcases Rex.matches_cat_cons.mp hA with ⟨m1, hf, hrest⟩
    rcases Rex.matches_cls_iff.mp hf with ⟨c, hc, hp, rfl⟩
    have hle := Rex.matches_le hrest
    refine ⟨by omega, c, hc, Or.inl ?_⟩
    simpa using hp
  · rcases Rex.matches_alt_iff.mp hBC with hB | hC
    · rcases Rex.matches_cat_cons.mp hB with ⟨m1, hbd, hrest⟩
      rcases Rex.matches_bound_iff.mp hbd with ⟨_, rfl⟩
      rcases Rex.matches_cat_cons.mp hrest with ⟨m2, h4, hrest2⟩
      rcases Rex.matches_cls_iff.mp h4 with ⟨c, hc, hp, rfl⟩
      have hle := Rex.matches_le hrest2
      refine ⟨by omega, c, hc, Or.inr (Or.inl ?_)⟩
      simpa using hp
    · rcases Rex.matches_cat_cons.mp hC with ⟨m1, hbd, hrest⟩
      rcases Rex.matches_bound_iff.mp hbd with ⟨_, rfl⟩
      rcases Rex.matches_cat_cons.mp hrest with ⟨m2, h5, hrest2⟩
      rcases Rex.matches_cls_iff.mp h5 with ⟨c, hc, hp, rfl⟩
      have hle := Rex.matches_le hrest2
      refine ⟨by omega, c, hc, Or.inr (Or.inr ?_)⟩
      simpa using hp

/-- The first character of any stdPat match is the letter i, and the match
is nonempty. -/
theorem MainPy.stdPat_head {t : List Char} {i j : Nat}
    (h : Rex.Matches t MainPy.stdPat i j) :
    i < j ∧ t.get? i = some 'i' := by
  rcases Rex.matches_cat_cons.mp h with ⟨m1, hi, hrest⟩
  rcases Rex.matches_cls_iff.mp hi with ⟨c, hc, hp, rfl⟩
  have hle := Rex.matches_le hrest
  have hcv : c = 'i' := by simpa using hp
  exact ⟨by omega, hcv ▸ hc⟩

/-- Slicing from a valid position exposes the indexed character. -/
theorem MainPy.sliceCh_cons {t : List Char} {i j : Nat} {c : Char}
    (hc : t.get? i = some c) (hij : i < j) :
    MainPy.sliceCh t i j = c :: MainPy.sliceCh t (i + 1) j := by
  unfold MainPy.sliceCh
  rw [Rex.drop_eq_cons_get _ _ _ hc]
  have he : j - i = (j - (i + 1)) + 1 := by omega
  rw [he, List.take_succ_cons]

/-- Strings built from a cons cell differ from the dash sentinel when the
head character is not a dash. -/
theorem MainPy.mk_cons_ne_dash {c : Char} {l : List Char} (hc : c ≠ '-') :
    String.mk (c :: l) ≠ "-" := by
  intro h
  have h2 : c :: l = ['-'] := congrArg String.data h
  injection h2 with h3
  exact hc h3

/-- Strings built from a cons cell are nonempty. -/
theorem MainPy.mk_cons_ne_empty {c : Char} {l : List Char} :
    String.mk (c :: l) ≠ "" := by
  intro h
  have h2 : c :: l = ([] : List Char) := congrArg String.data h
  exact absurd h2 (by simp)

/-- Strings with the fixed mm suffix are neither the sentinel nor empty. -/
theorem MainPy.append_mm_ne (a : String) : a ++ " mm" ≠ "-" ∧ a ++ " mm" ≠ "" := by
  have h3 : (" mm" : String).length = 3 := rfl
  constructor
  · intro h
    have h2 := congrArg String.length h
    rw [String.length_append, h3] at h2
    have h4 : ("-" : String).length = 1 := rfl
    rw [h4] at h2
    omega
  · intro h
    have h2 := congrArg String.length h
    rw [String.length_append, h3] at h2
    have h4 : ("" : String).length = 0 := rfl
    rw [h4] at h2
    omega

/-- Outputs of extract_grade are neither the sentinel nor empty. -/
theorem MainPy.extract_grade_proper (t : List Char) (v : String)
    (h : MainPy.extract_grade t = some v) : v ≠ "-" ∧ v ≠ "" := by
  unfold MainPy.extract_grade at h
  cases hs : Rex.reSearch MainPy.gradePat t with
  | none => rw [hs] at h; exact absurd h (by simp)
  | some m =>
    rw [hs] at h
    injection h with hv
    rcases Rex.reSearch_sound hs with ⟨i, hi, hm⟩
    have hbr : Rex.brFree MainPy.gradeBody = true := rfl
    rcases Rex.matAt_grp_span hbr hm with ⟨hms, hgg, hmb⟩
    rcases MainPy.gradeBody_head hmb with ⟨hij, c, hc, hcv⟩
    have hg1 : MainPy.group1Ch t m = MainPy.sliceCh t i m.me := by
      unfold MainPy.group1Ch
      rw [hgg]
    rw [hg1, MainPy.sliceCh_cons hc hij] at hv
    subst hv
    unfold MainPy.pyUpper
    rw [List.map_cons, List.filter_cons_of_pos]
    · rcases hcv with rfl | rfl | rfl
      · exact ⟨MainPy.mk_cons_ne_dash (by decide), MainPy.mk_cons_ne_empty⟩
      · exact ⟨MainPy.mk_cons_ne_dash (by decide), MainPy.mk_cons_ne_empty⟩
      · exact ⟨MainPy.mk_cons_ne_dash (by decide), MainPy.mk_cons_ne_empty⟩
    · rcases hcv with rfl | rfl | rfl <;> decide

/-- Outputs of extract_standard are neither the sentinel nor empty. -/
theorem MainPy.extract_standard_proper (t : List Char) (v : String)
    (h : MainPy.extract_standard t = some v) : v ≠ "-" ∧ v ≠ "" := by
  unfold MainPy.extract_standard at h
  cases hs : Rex.reSearch MainPy.stdPat t with
  | none => rw [hs] at h; exact absurd h (by simp)
  | some m =>
    rw [hs] at h
    injection h with hv
    rcases Rex.reSearch_sound hs with ⟨i, hi, hm⟩
    have hbr : Rex.brFree MainPy.stdPat = true := rfl
    rcases Rex.matAt_span hbr hm with ⟨hms, hmb⟩
    rcases MainPy.stdPat_head hmb with ⟨hij, hc⟩
    rw [hms] at hv
    rw [MainPy.sliceCh_cons hc hij] at hv
    subst hv
    unfold MainPy.pyUpper
    rw [List.map_cons]
    exact ⟨MainPy.mk_cons_ne_dash (by decide), MainPy.mk_cons_ne_empty⟩

/-- Outputs of extract_diameter are neither the sentinel nor empty. -/
theorem MainPy.extract_diameter_proper (t : List Char) (v : String)
    (h : MainPy.extract_diameter t = some v) : v ≠ "-" ∧ v ≠ "" := by
  unfold MainPy.extract_diameter at h
  cases hs : Rex.reSearch MainPy.diamPat t with
  | none => rw [hs] at h; exact absurd h (by simp)
  | some m =>
    rw [hs] at h
    injection h with hv
    subst hv
    exact MainPy.append_mm_ne _

/-- Outputs of extract_length are neither the sentinel nor empty. -/
theorem MainPy.extract_length_proper (t : List Char) (v : String)
    (h : MainPy.extract_length t = some v) : v ≠ "-" ∧ v ≠ "" := by
  unfold MainPy.extract_length at h
  cases hs : Rex.reSearch MainPy.lenPat t with
  | none => rw [hs] at h; exact absurd h (by simp)
  | some m =>
    rw [hs] at h
    injection h with hv
    subst hv
    exact MainPy.append_mm_ne _

/-- Outputs of extract_material are neither the sentinel nor empty. -/
theorem MainPy.extract_material_proper (t : List Char) (v : String)
    (h : MainPy.extract_material t = some v) : v ≠ "-" ∧ v ≠ "" := by
  unfold MainPy.extract_material at h
  split_ifs at h
  all_goals injection h with hv
  all_goals subst hv
  all_goals exact ⟨by decide, by decide⟩

/-- Outputs of extract_form are neither the sentinel nor empty. -/
theorem MainPy.extract_form_proper (t : List Char) (v : String)
    (h : MainPy.extract_form t = some v) : v ≠ "-" ∧ v ≠ "" := by
  unfold MainPy.extract_form at h
  split_ifs at h
  all_goals injection h with hv
  all_goals subst hv
  all_goals exact ⟨by decide, by decide⟩

/-- Every aspect extractor of the tier-B pipeline produces values that are
neither the dash sentinel nor the empty string. -/
theorem MainPy.aspects_proper :
    ∀ af ∈ MainPy.aspects, ∀ t v, af.2 t = some v → v ≠ "-" ∧ v ≠ "" := by
  intro af haf t v h
  simp only [MainPy.aspects, List.mem_cons, List.not_mem_nil, or_false] at haf
  rcases haf with rfl | rfl | rfl | rfl | rfl | rfl
  · exact MainPy.extract_grade_proper t v h
  · exact MainPy.extract_diameter_proper t v h
  · exact MainPy.extract_material_proper t v h
  · exact MainPy.extract_form_proper t v h
  · exact MainPy.extract_length_proper t v h
  · exact MainPy.extract_standard_proper t v h

/-- The comparator passes the two values through unchanged. -/
theorem MainPy.compare_field_passthrough (fr sim : String → String → ℚ)
    (v1 v2 : Option String) :
    (MainPy.compare_field fr sim v1 v2).2 = (v1, v2) := by
  unfold MainPy.compare_field
  split_ifs <;> rfl

/-- A proper value renders as the sentinel exactly when it is absent. -/
theorem MainPy.orDash_eq_dash_iff {v : Option String}
    (hp : ∀ s, v = some s → s ≠ "-" ∧ s ≠ "") :
    (MainPy.orDash v = "-") ↔ v = none := by
  cases v with
  | none => simp [MainPy.orDash]
  | some s =>
    rcases hp s rfl with ⟨h1, h2⟩
    have he : s.isEmpty = false := isEmpty_false_of_ne h2
    simp [MainPy.orDash, he, h1]

/-- Characterization of the fallback trigger: a dash sentinel appears in
the rows exactly when some extractor returned absence on some side. -/
theorem MainPy.fields_missing_char (fr sim : String → String → ℚ)
    (s1 s2 : List Char) :
    MainPy.fields_missing (MainPy.compare_rows fr sim s1 s2) = true ↔
      ∃ af ∈ MainPy.aspects, af.2 (MainPy.preprocess s1) = none ∨
        af.2 (MainPy.preprocess s2) = none := by
  unfold MainPy.fields_missing MainPy.compare_rows
  rw [List.any_eq_true]
  constructor
  · rintro ⟨r, hr, hp⟩
    rcases List.mem_map.mp hr with ⟨af, haf, rfl⟩
    refine ⟨af, haf, ?_⟩
    simp only [MainPy.compare_field_passthrough,
      Bool.or_eq_true, beq_iff_eq] at hp
    have hprop1 : ∀ s, af.2 (MainPy.preprocess s1) = some s → s ≠ "-" ∧ s ≠ "" :=
      fun s hs => MainPy.aspects_proper af haf (MainPy.preprocess s1) s hs
    have hprop2 : ∀ s, af.2 (MainPy.preprocess s2) = some s → s ≠ "-" ∧ s ≠ "" :=
      fun s hs => MainPy.aspects_proper af haf (MainPy.preprocess s2) s hs
    rcases hp with h | h
    · exact Or.inl ((MainPy.orDash_eq_dash_iff hprop1).mp h)
    · exact Or.inr ((MainPy.orDash_eq_dash_iff hprop2).mp h)
  · rintro ⟨af, haf, hor⟩
    refine ⟨_, List.mem_map.mpr ⟨af, haf, rfl⟩, ?_⟩
    simp only [MainPy.compare_field_passthrough,
      Bool.or_eq_true, beq_iff_eq]
    rcases hor with h | h
    · exact Or.inl (by rw [h]; rfl)
    · exact Or.inr (by rw [h]; rfl)

/-- C6: the LLM fallback is invoked exactly once when some comparison row
carries the absence sentinel on either side, and not at all otherwise;
equivalently, the call count is zero exactly when every aspect extractor
produced a value on both preprocessed inputs. -/
theorem c6_fallback_iff (fr sim : String → String → ℚ) (s1 s2 : List Char) :
    (MainPy.llmCalls fr sim s1 s2 = 1 ↔
      ∃ r ∈ MainPy.compare_rows fr sim s1 s2, r.2.1 = "-" ∨ r.2.2.1 = "-") ∧
    (MainPy.llmCalls fr sim s1 s2 = 0 ↔
      ∀ af ∈ MainPy.aspects, (af.2 (MainPy.preprocess s1)).isSome = true ∧
        (af.2 (MainPy.preprocess s2)).isSome = true) := by
  constructor
  · unfold MainPy.llmCalls
    by_cases hf : MainPy.fields_missing (MainPy.compare_rows fr sim s1 s2) = true
    · rw [if_pos hf]
      constructor
      · intro _
        rcases List.any_eq_true.mp hf with ⟨r, hr, hcond⟩
        simp only [Bool.or_eq_true, beq_iff_eq] at hcond
        exact ⟨r, hr, hcond⟩
      · intro _; rfl
    · rw [if_neg hf]
      constructor
      · intro h; exact absurd h (by omega)
      · rintro ⟨r, hr, hcond⟩
        exfalso
        apply hf
        apply List.any_eq_true.mpr
        refine ⟨r, hr, ?_⟩
        simp only [Bool.or_eq_true, beq_iff_eq]
        exact hcond
  · unfold MainPy.llmCalls
    by_cases hf : MainPy.fields_missing (MainPy.compare_rows fr sim s1 s2) = true
    · rw [if_pos hf]
      constructor
      · intro h; exact absurd h (by omega)
      · intro hall
        exfalso
        rcases (MainPy.fields_missing_char fr sim s1 s2).mp hf with ⟨af, haf, hor⟩
        rcases hall af haf with ⟨h1, h2⟩
        rcases hor with h | h
        · rw [h] at h1; simp at h1
        · rw [h] at h2; simp at h2
    · rw [if_neg hf]
      constructor
      · intro _ af haf
        constructor
        · cases hv : af.2 (MainPy.preprocess s1) with
          | some _ => rfl
          | none =>
            exact absurd ((MainPy.fields_missing_char fr sim s1 s2).mpr
              ⟨af, haf, Or.inl hv⟩) hf
        · cases hv : af.2 (MainPy.preprocess s2) with
          | some _ => rfl
          | none =>
            exact absurd ((MainPy.fields_missing_char fr sim s1 s2).mpr
              ⟨af, haf, Or.inr hv⟩) hf
      · intro _; rfl

/-- Witness for C6 at a concrete input on which all six extractors
succeed, so the fallback is not invoked. -/
theorem c6_fallback_iff_witness :
    MainPy.llmCalls (fun _ _ => 0) (fun _ _ => 0)
      "opc 53 loose 10 mm 1000 mm is 1786".toList
      "opc 53 loose 10 mm 1000 mm is 1786".toList = 0 :=
  ((c6_fallback_iff (fun _ _ => 0) (fun _ _ => 0) _ _).2).mpr (by decide)

/-- Characters inside an admissible run length all satisfy the class. -/
theorem Rex.runLen_spec {p : Char → Bool} {s : List Char} :
    ∀ k a, k ≤ Rex.runLen p (s.drop a) →
      ∀ q, a ≤ q → q < a + k → ∃ c, s.get? q = some c ∧ p c = true := by
  intro k
  induction k with
  | zero => intro a _ q h1 h2; omega
  | succ n ih =>
    intro a hk q h1 h2
    cases hc : s.get? a with
    | none =>
      exfalso
      have hlen : s.length ≤ a := List.get?_eq_none.mp hc
      rw [List.drop_eq_nil_of_le hlen] at hk
      simp [Rex.runLen] at hk
    | some c =>
      rw [Rex.drop_eq_cons_get _ _ _ hc, Rex.runLen] at hk
      by_cases hp : p c = true
      · rw [if_pos hp] at hk
        rcases Nat.eq_or_lt_of_le h1 with rfl | hlt
        · exact ⟨c, hc, hp⟩
        · exact ih (a + 1) (by omega) q (by omega) (by omega)
      · rw [if_neg hp] at hk
        omega

/-- A range of class characters bounds the run length from below. -/
theorem Rex.runLen_ge {p : Char → Bool} {s : List Char} :
    ∀ k a, (∀ q, a ≤ q → q < a + k → ∃ c, s.get? q = some c ∧ p c = true) →
      k ≤ Rex.runLen p (s.drop a) := by
  intro k
  induction k with
  | zero => intro a _; omega
  | succ n ih =>
    intro a hd
    rcases hd a (Nat.le_refl _) (by omega) with ⟨c, hc, hp⟩
    rw [Rex.drop_eq_cons_get _ _ _ hc, Rex.runLen, if_pos hp]
    have := ih (a + 1) (fun q h1 h2 => hd q (by omega) (by omega))
    omega

/-- A digit range predicate over positions, used by the declarative shape
statements. -/
def MainPy.digitsAt (t : List Char) (a b : Nat) : Prop :=
  ∀ p, a ≤ p → p < b → ∃ c, t.get? p = some c ∧ c.isDigit = true

/-- Decomposition of the one-to-three-digit block. -/
theorem MainPy.digits13_iff {t : List Char} {i j : Nat} :
    Rex.Matches t MainPy.digits13 i j ↔
      ∃ n, 1 ≤ n ∧ n ≤ 3 ∧ j = i + n ∧ MainPy.digitsAt t i (i + n) := by
  constructor
  · intro h
    rcases Rex.matches_seq_iff.mp h with ⟨j1, h1, h2⟩
    rcases Rex.matches_cls_iff.mp h1 with ⟨c1, hc1, hp1, rfl⟩
    rcases Rex.matches_opt_iff.mp h2 with h2a | rfl
    · rcases Rex.matches_seq_iff.mp h2a with ⟨j2, h3, h4⟩
      rcases Rex.matches_cls_iff.mp h3 with ⟨c2, hc2, hp2, rfl⟩
      rcases Rex.matches_opt_iff.mp h4 with h4a | rfl
      · rcases Rex.matches_cls_iff.mp h4a with ⟨c3, hc3, hp3, rfl⟩
        refine ⟨3, by omega, by omega, by omega, ?_⟩
        intro p hpa hpb
        have hp3e : p = i ∨ p = i + 1 ∨ p = i + 2 := by omega
        rcases hp3e with rfl | rfl | rfl
        · exact ⟨c1, hc1, hp1⟩
        · exact ⟨c2, hc2, hp2⟩
        · exact ⟨c3, hc3, hp3⟩
      · refine ⟨2, by omega, by omega, by omega, ?_⟩
        intro p hpa hpb
        have hp2e : p = i ∨ p = i + 1 := by omega
        rcases hp2e with rfl | rfl
        · exact ⟨c1, hc1, hp1⟩
        · exact ⟨c2, hc2, hp2⟩
    · refine ⟨1, by omega, by omega, by omega, ?_⟩
      intro p hpa hpb
      have hp1e : p = i := by omega
      subst hp1e
      exact ⟨c1, hc1, hp1⟩
  · rintro ⟨n, hn1, hn3, rfl, hd⟩
    interval_cases n
    · rcases hd i (Nat.le_refl _) (by omega) with ⟨c1, hc1, hp1⟩
      exact .seq (.cls hc1 hp1) (.optNone _ _)
    · rcases hd i (Nat.le_refl _) (by omega) with ⟨c1, hc1, hp1⟩
      rcases hd (i + 1) (by omega) (by omega) with ⟨c2, hc2, hp2⟩
      exact .seq (.cls hc1 hp1) (.optSome (.seq (.cls hc2 hp2) (.optNone _ _)))
    · rcases hd i (Nat.le_refl _) (by omega) with ⟨c1, hc1, hp1⟩
      rcases hd (i + 1) (by omega) (by omega) with ⟨c2, hc2, hp2⟩
      rcases hd (i + 2) (by omega) (by omega) with ⟨c3, hc3, hp3⟩
      exact .seq (.cls hc1 hp1)
        (.optSome (.seq (.cls hc2 hp2) (.optSome (.cls hc3 hp3))))

/-- Decomposition of the four-to-five-digit block. -/
theorem MainPy.digits45_iff {t : List Char} {i j : Nat} :
    Rex.Matches t MainPy.digits45 i j ↔
      ∃ n, 4 ≤ n ∧ n ≤ 5 ∧ j = i + n ∧ MainPy.digitsAt t i (i + n) := by
  constructor
  · intro h
    rcases Rex.matches_seq_iff.mp h with ⟨j1, h1, hr1⟩
    rcases Rex.matches_cls_iff.mp h1 with ⟨c1, hc1, hp1, rfl⟩
    rcases Rex.matches_seq_iff.mp hr1 with ⟨j2, h2, hr2⟩
    rcases Rex.matches_cls_iff.mp h2 with ⟨c2, hc2, hp2, rfl⟩
    rcases Rex.matches_seq_iff.mp hr2 with ⟨j3, h3, hr3⟩
    rcases Rex.matches_cls_iff.mp h3 with ⟨c3, hc3, hp3, rfl⟩
    rcases Rex.matches_seq_iff.mp hr3 with ⟨j4, h4, hr4⟩
    rcases Rex.matches_cls_iff.mp h4 with ⟨c4, hc4, hp4, rfl⟩
    rcases Rex.matches_opt_iff.mp hr4 with h5a | rfl
    · rcases Rex.matches_cls_iff.mp h5a with ⟨c5, hc5, hp5, rfl⟩
      refine ⟨5, by omega, by omega, by omega, ?_⟩
      intro p hpa hpb
      have hpe : p = i ∨ p = i + 1 ∨ p = i + 2 ∨ p = i + 3 ∨ p = i + 4 := by omega
      rcases hpe with rfl | rfl | rfl | rfl | rfl
      · exact ⟨c1, hc1, hp1⟩
      · exact ⟨c2, hc2, hp2⟩
      · exact ⟨c3, hc3, hp3⟩
      · exact ⟨c4, hc4, hp4⟩
      · exact ⟨c5, hc5, hp5⟩
    · refine ⟨4, by omega, by omega, by omega, ?_⟩
      intro p hpa hpb
      have hpe : p = i ∨ p = i + 1 ∨ p = i + 2 ∨ p = i + 3 := by omega
      rcases hpe with rfl | rfl | rfl | rfl
      · exact ⟨c1, hc1, hp1⟩
      · exact ⟨c2, hc2, hp2⟩
      · exact ⟨c3, hc3, hp3⟩
      · exact ⟨c4, hc4, hp4⟩
  · rintro ⟨n, hn1, hn5, rfl, hd⟩
    have g1 := hd i (Nat.le_refl _) (by omega)
    have g2 := hd (i + 1) (by omega) (by omega)
    have g3 := hd (i + 2) (by omega) (by omega)
    have g4 := hd (i + 3) (by omega) (by omega)
    rcases g1 with ⟨c1, hc1, hp1⟩
    rcases g2 with ⟨c2, hc2, hp2⟩
    rcases g3 with ⟨c3, hc3, hp3⟩
    rcases g4 with ⟨c4, hc4, hp4⟩
    interval_cases n
    · exact .seq (.cls hc1 hp1) (.seq (.cls hc2 hp2) (.seq (.cls hc3 hp3)
        (.seq (.cls hc4 hp4) (.optNone _ _))))
    · rcases hd (i + 4) (by omega) (by omega) with ⟨c5, hc5, hp5⟩
      exact .seq (.cls hc1 hp1) (.seq (.cls hc2 hp2) (.seq (.cls hc3 hp3)
        (.seq (.cls hc4 hp4) (.optSome (.cls hc5 hp5)))))

/-- Decomposition of the decimal tail: optional dot, then digits. -/
theorem MainPy.numTail_iff {t : List Char} {i j : Nat} :
    Rex.Matches t MainPy.numTail i j ↔
      ∃ dot m2, dot ≤ 1 ∧ (dot = 1 → t.get? i = some '.') ∧
        j = i + dot + m2 ∧ MainPy.digitsAt t (i + dot) (i + dot + m2) := by
  constructor
  · intro h
    rcases Rex.matches_seq_iff.mp h with ⟨j1, hopt, hstar⟩
    rcases Rex.matches_star_iff.mp hstar with ⟨hle, hrun⟩
    rcases Rex.matches_opt_iff.mp hopt with hdot | heq
    · rcases Rex.matches_cls_iff.mp hdot with ⟨c, hc, hp, rfl⟩
      have hcv : c = '.' := by simpa using hp
      subst hcv
      refine ⟨1, j - (i + 1), by omega, fun _ => hc, by omega, ?_⟩
      intro p hpa hpb
      exact Rex.runLen_spec (j - (i + 1)) (i + 1) hrun p (by omega) (by omega)
    · rw [heq] at hle hrun
      refine ⟨0, j - i, by omega, fun h => absurd h (by omega), by omega, ?_⟩
      intro p hpa hpb
      exact Rex.runLen_spec (j - i) i hrun p (by omega) (by omega)
  · rintro ⟨dot, m2, hdot, hdc, rfl, hd⟩
    interval_cases dot
    · have hstar := Rex.matches_star_of_le m2 i (Rex.runLen_ge m2 i (by
        intro q h1 h2
        exact hd q (by omega) (by omega)))
      have he : i + m2 = i + 0 + m2 := by omega
      exact .seq (.optNone _ _) (he ▸ hstar)
    · have hc := hdc rfl
      have hstar := Rex.matches_star_of_le m2 (i + 1) (Rex.runLen_ge m2 (i + 1) (by
        intro q h1 h2
        exact hd q (by omega) (by omega)))
      exact .seq (.optSome (.cls hc (by decide))) hstar

/-- Decomposition of the optional-whitespace mm tail. -/
theorem MainPy.wsmm_iff {t : List Char} {i j : Nat} :
    Rex.Matches t (.seq (.opt (.cls Rex.wsChar))
      (.seq (Rex.lit 'm') (Rex.lit 'm'))) i j ↔
      ∃ sp, sp ≤ 1 ∧ (sp = 1 → ∃ c, t.get? i = some c ∧ Rex.wsChar c = true) ∧
        t.get? (i + sp) = some 'm' ∧ t.get? (i + sp + 1) = some 'm' ∧
        j = i + sp + 2 := by
  constructor
  · intro h
    rcases Rex.matches_seq_iff.mp h with ⟨j1, hopt, hmm⟩
    rcases Rex.matches_seq_iff.mp hmm with ⟨j2, hm1, hm2⟩
    rcases Rex.matches_cls_iff.mp hm1 with ⟨c1, hc1, hp1, rfl⟩
    rcases Rex.matches_cls_iff.mp hm2 with ⟨c2, hc2, hp2, rfl⟩
    have he1 : c1 = 'm' := by simpa using hp1
    have he2 : c2 = 'm' := by simpa using hp2
    subst he1
    subst he2
    rcases Rex.matches_opt_iff.mp hopt with hws | heq
    · rcases Rex.matches_cls_iff.mp hws with ⟨c, hc, hp, rfl⟩
      exact ⟨1, by omega, fun _ => ⟨c, hc, hp⟩, hc1, hc2, by omega⟩
    · rw [heq] at hc1 hc2
      refine ⟨0, by omega, fun h => absurd h (by omega), ?_, ?_, by omega⟩
      · rw [Nat.add_zero]
        exact hc1
      · rw [Nat.add_zero]
        exact hc2
  · rintro ⟨sp, hsp, hws, hm1, hm2, rfl⟩
    interval_cases sp
    · have hA : t.get? i = some 'm' := by rw [Nat.add_zero] at hm1; exact hm1
      have hB : t.get? (i + 1) = some 'm' := by
        rw [Nat.add_zero] at hm2
        exact hm2
      have hmm : Rex.Matches t (.seq (Rex.lit 'm') (Rex.lit 'm')) i (i + 1 + 1) :=
        .seq (.cls hA (by decide)) (.cls hB (by decide))
      have he : i + 1 + 1 = i + 0 + 2 := by omega
      exact .seq (.optNone _ _) (he ▸ hmm)
    · rcases hws rfl with ⟨c, hc, hp⟩
      have hmm : Rex.Matches t (.seq (Rex.lit 'm') (Rex.lit 'm'))
          (i + 1) (i + 1 + 1 + 1) :=
        .seq (.cls hm1 (by decide)) (.cls hm2 (by decide))
      have he : i + 1 + 1 + 1 = i + 1 + 2 := by omega
      exact .seq (.optSome (.cls hc hp)) (he ▸ hmm)

/-- Full positional decomposition of the diameter pattern. -/
theorem MainPy.diamPat_iff {t : List Char} {i j : Nat} :
    Rex.Matches t MainPy.diamPat i j ↔
      ∃ n dot m2 sp, 1 ≤ n ∧ n ≤ 3 ∧ dot ≤ 1 ∧ sp ≤ 1 ∧
        MainPy.digitsAt t i (i + n) ∧
        (dot = 1 → t.get? (i + n) = some '.') ∧
        MainPy.digitsAt t (i + n + dot) (i + n + dot + m2) ∧
        (sp = 1 → ∃ c, t.get? (i + n + dot + m2) = some c ∧
          Rex.wsChar c = true) ∧
        t.get? (i + n + dot + m2 + sp) = some 'm' ∧
        t.get? (i + n + dot + m2 + sp + 1) = some 'm' ∧
        j = i + n + dot + m2 + sp + 2 := by
  constructor
  · intro h
    rcases Rex.matches_seq_iff.mp h with ⟨j1, hg, htl⟩
    have hg2 := Rex.matches_grp_iff.mp hg
    rcases Rex.matches_seq_iff.mp hg2 with ⟨j2, h13, hnt⟩
    rcases MainPy.digits13_iff.mp h13 with ⟨n, hn1, hn3, rfl, hd13⟩
    rcases MainPy.numTail_iff.mp hnt with ⟨dot, m2, hdot, hdc, rfl, hdnt⟩
    rcases MainPy.wsmm_iff.mp htl with ⟨sp, hsp, hws, hm1, hm2, rfl⟩
    exact ⟨n, dot, m2, sp, hn1, hn3, hdot, hsp, hd13, hdc, hdnt, hws,
      hm1, hm2, rfl⟩
  · rintro ⟨n, dot, m2, sp, hn1, hn3, hdot, hsp, hd13, hdc, hdnt, hws,
      hm1, hm2, rfl⟩
    exact .seq (.grp (.seq (MainPy.digits13_iff.mpr ⟨n, hn1, hn3, rfl, hd13⟩)
      (MainPy.numTail_iff.mpr ⟨dot, m2, hdot, hdc, rfl, hdnt⟩)))
      (MainPy.wsmm_iff.mpr ⟨sp, hsp, hws, hm1, hm2, rfl⟩)

/-- Full positional decomposition of the length pattern. -/
theorem MainPy.lenPat_iff {t : List Char} {i j : Nat} :
    Rex.Matches t MainPy.lenPat i j ↔
      ∃ n dot m2 sp, 4 ≤ n ∧ n ≤ 5 ∧ dot ≤ 1 ∧ sp ≤ 1 ∧
        MainPy.digitsAt t i (i + n) ∧
        (dot = 1 → t.get? (i + n) = some '.') ∧
        MainPy.digitsAt t (i + n + dot) (i + n + dot + m2) ∧
        (sp = 1 → ∃ c, t.get? (i + n + dot + m2) = some c ∧
          Rex.wsChar c = true) ∧
        t.get? (i + n + dot + m2 + sp) = some 'm' ∧
        t.get? (i + n + dot + m2 + sp + 1) = some 'm' ∧
        j = i + n + dot + m2 + sp + 2 := by
  constructor
  · intro h
    rcases Rex.matches_seq_iff.mp h with ⟨j1, hg, htl⟩
    have hg2 := Rex.matches_grp_iff.mp hg
    rcases Rex.matches_seq_iff.mp hg2 with ⟨j2, h45, hnt⟩
    rcases MainPy.digits45_iff.mp h45 with ⟨n, hn1, hn5, rfl, hd45⟩
    rcases MainPy.numTail_iff.mp hnt with ⟨dot, m2, hdot, hdc, rfl, hdnt⟩
    rcases MainPy.wsmm_iff.mp htl with ⟨sp, hsp, hws, hm1, hm2, rfl⟩
    exact ⟨n, dot, m2, sp, hn1, hn5, hdot, hsp, hd45, hdc, hdnt, hws,
      hm1, hm2, rfl⟩
  · rintro ⟨n, dot, m2, sp, hn1, hn5, hdot, hsp, hd45, hdc, hdnt, hws,
      hm1, hm2, rfl⟩
    exact .seq (.grp (.seq (MainPy.digits45_iff.mpr ⟨n, hn1, hn5, rfl, hd45⟩)
      (MainPy.numTail_iff.mpr ⟨dot, m2, hdot, hdc, rfl, hdnt⟩)))
      (MainPy.wsmm_iff.mpr ⟨sp, hsp, hws, hm1, hm2, rfl⟩)

/-- Shape recognized by the diameter extractor, stated as plain positional
arithmetic over the text: at some position one to three digits, then
optionally a dot, then any number of further digits, then at most one
whitespace, then the two letters mm. The unbounded digit tail is what lets
the pattern accept numbers with more than three digits. -/
def MainPy.specDiam (t : List Char) : Prop :=
  ∃ i n dot m2 sp, 1 ≤ n ∧ n ≤ 3 ∧ dot ≤ 1 ∧ sp ≤ 1 ∧
    MainPy.digitsAt t i (i + n) ∧
    (dot = 1 → t.get? (i + n) = some '.') ∧
    MainPy.digitsAt t (i + n + dot) (i + n + dot + m2) ∧
    (sp = 1 → ∃ c, t.get? (i + n + dot + m2) = some c ∧
      Rex.wsChar c = true) ∧
    t.get? (i + n + dot + m2 + sp) = some 'm' ∧
    t.get? (i + n + dot + m2 + sp + 1) = some 'm'

/-- Shape recognized by the length extractor: the same decomposition with
four to five leading digits. -/
def MainPy.specLen (t : List Char) : Prop :=
  ∃ i n dot m2 sp, 4 ≤ n ∧ n ≤ 5 ∧ dot ≤ 1 ∧ sp ≤ 1 ∧
    MainPy.digitsAt t i (i + n) ∧
    (dot = 1 → t.get? (i + n) = some '.') ∧
    MainPy.digitsAt t (i + n + dot) (i + n + dot + m2) ∧
    (sp = 1 → ∃ c, t.get? (i + n + dot + m2) = some c ∧
      Rex.wsChar c = true) ∧
    t.get? (i + n + dot + m2 + sp) = some 'm' ∧
    t.get? (i + n + dot + m2 + sp + 1) = some 'm'

/-- The diameter extractor succeeds exactly when its pattern search does. -/
theorem MainPy.extract_diameter_isSome (t : List Char) :
    (MainPy.extract_diameter t).isSome = (Rex.reSearch MainPy.diamPat t).isSome := by
  unfold MainPy.extract_diameter
  cases hs : Rex.reSearch MainPy.diamPat t <;> simp [hs]

/-- The length extractor succeeds exactly when its pattern search does. -/
theorem MainPy.extract_length_isSome (t : List Char) :
    (MainPy.extract_length t).isSome = (Rex.reSearch MainPy.lenPat t).isSome := by
  unfold MainPy.extract_length
  cases hs : Rex.reSearch MainPy.lenPat t <;> simp [hs]

/-- Success of the diameter extractor is equivalent to the declarative
shape statement. -/
theorem MainPy.extract_diameter_char (t : List Char) :
    (MainPy.extract_diameter t).isSome = true ↔ MainPy.specDiam t := by
  rw [MainPy.extract_diameter_isSome,
    Rex.reSearch_isSome_iff (by rfl) t]
  constructor
  · rintro ⟨i, j, hi, hm⟩
    rcases MainPy.diamPat_iff.mp hm with ⟨n, dot, m2, sp, h1, h2, h3, h4, h5,
      h6, h7, h8, h9, h10, rfl⟩
    exact ⟨i, n, dot, m2, sp, h1, h2, h3, h4, h5, h6, h7, h8, h9, h10⟩
  · rintro ⟨i, n, dot, m2, sp, h1, h2, h3, h4, h5, h6, h7, h8, h9, h10⟩
    refine ⟨i, i + n + dot + m2 + sp + 2, ?_, MainPy.diamPat_iff.mpr
      ⟨n, dot, m2, sp, h1, h2, h3, h4, h5, h6, h7, h8, h9, h10, rfl⟩⟩
    rcases List.get?_eq_some.mp h9 with ⟨hlt, _⟩
    omega

/-- Success of the length extractor is equivalent to the declarative shape
statement. -/
theorem MainPy.extract_length_char (t : List Char) :
    (MainPy.extract_length t).isSome = true ↔ MainPy.specLen t := by
  rw [MainPy.extract_length_isSome,
    Rex.reSearch_isSome_iff (by rfl) t]
  constructor
  · rintro ⟨i, j, hi, hm⟩
    rcases MainPy.lenPat_iff.mp hm with ⟨n, dot, m2, sp, h1, h2, h3, h4, h5,
      h6, h7, h8, h9, h10, rfl⟩
    exact ⟨i, n, dot, m2, sp, h1, h2, h3, h4, h5, h6, h7, h8, h9, h10⟩
  · rintro ⟨i, n, dot, m2, sp, h1, h2, h3, h4, h5, h6, h7, h8, h9, h10⟩
    refine ⟨i, i + n + dot + m2 + sp + 2, ?_, MainPy.lenPat_iff.mpr
      ⟨n, dot, m2, sp, h1, h2, h3, h4, h5, h6, h7, h8, h9, h10, rfl⟩⟩
    rcases List.get?_eq_some.mp h9 with ⟨hlt, _⟩
    omega

/-- Every length shape contains a diameter shape: reuse the last three of
the leading digits and push the remaining ones into the digit tail of the
diameter pattern. -/
theorem MainPy.specLen_specDiam {t : List Char} (h : MainPy.specLen t) :
    MainPy.specDiam t := by
  rcases h with ⟨i, n, dot, m2, sp, h1, h2, h3, h4, h5, h6, h7, h8, h9, h10⟩
  refine ⟨i + (n - 3), 3, dot, m2, sp, by omega, by omega, h3, h4,
    ?_, ?_, ?_, ?_, ?_, ?_⟩
  · intro p hpa hpb
    exact h5 p (by omega) (by omega)
  · intro hd1
    have he : i + (n - 3) + 3 = i + n := by omega
    rw [he]
    exact h6 hd1
  · intro p hpa hpb
    exact h7 p (by omega) (by omega)
  · intro hsp1
    rcases h8 hsp1 with ⟨c, hc, hw⟩
    refine ⟨c, ?_, hw⟩
    have he : i + (n - 3) + 3 + dot + m2 = i + n + dot + m2 := by omega
    rw [he]
    exact hc
  · have he : i + (n - 3) + 3 + dot + m2 + sp = i + n + dot + m2 + sp := by omega
    rw [he]
    exact h9
  · have he : i + (n - 3) + 3 + dot + m2 + sp + 1 = i + n + dot + m2 + sp + 1 := by
      omega
    rw [he]
    exact h10

/-- C4 counterexample: on the text 1234mm, whose only mm-suffixed number
has four digits, extract_diameter does not return absence: both extractors
return the same canonicalized value. -/
theorem c4_digit_count_counterexample :
    MainPy.extract_diameter "1234mm".toList = some "1234.00 mm" ∧
    MainPy.extract_length "1234mm".toList = some "1234.00 mm" := by
  constructor
  · decide
  · decide

/-- C4 amended: extract_diameter returns a value exactly when the text
contains, at some position, one to three digits, an optional dot with
further digits, at most one whitespace and mm; extract_length likewise
with four to five leading digits. Because the digit tail of the diameter
pattern is unbounded, the two are not disjoint: every text accepted by
extract_length is also accepted by extract_diameter, so a four-to-five
digit number followed by mm yields values from both extractors rather
than absence from the diameter one. -/
theorem c4_digit_count_amended (t : List Char) :
    ((MainPy.extract_diameter t).isSome = true ↔ MainPy.specDiam t) ∧
    ((MainPy.extract_length t).isSome = true ↔ MainPy.specLen t) ∧
    ((MainPy.extract_length t).isSome = true →
      (MainPy.extract_diameter t).isSome = true) := by
  refine ⟨MainPy.extract_diameter_char t, MainPy.extract_length_char t, ?_⟩
  intro h
  exact (MainPy.extract_diameter_char t).mpr
    (MainPy.specLen_specDiam ((MainPy.extract_length_char t).mp h))

/-- Witness for C4 amended: the implication instantiated on the concrete
text of the counterexample. -/
theorem c4_digit_count_amended_witness :
    (MainPy.extract_length "1234mm".toList).isSome = true ∧
    (MainPy.extract_diameter "1234mm".toList).isSome = true :=
  ⟨by decide, (c4_digit_count_amended "1234mm".toList).2.2 (by decide)⟩

namespace Iter1

open Rex

/-- Match object handed to a formatter: the full source text and the raw
engine result; group and string mirror the Python match-object accessors. -/
structure PyMatch where
  src : List Char
  res : Rex.MRes

/-- Accessor m.group(n): the whole match for 0, the recorded span of group
n otherwise. -/
def PyMatch.group (m : PyMatch) (n : Nat) : String :=
  if n = 0 then String.mk (MainPy.sliceCh m.src m.res.ms m.res.me)
  else
    match Rex.getG m.res.mg n with
    | some x => String.mk (MainPy.sliceCh m.src x.1 x.2)
    | none => ""

/-- Accessor m.string: the full source text. -/
def PyMatch.string (m : PyMatch) : String := String.mk m.src

/-- Python str.strip on a string value. -/
def strip (s : String) : String := String.mk (MainPy.pyStrip s.data)

/-- Character class of the bracket expression colon-or-hyphen. -/
def colonDashC (c : Char) : Bool := c == ':' || c == '-'

/-- Character class of everything except a semicolon. -/
def notSemiC (c : Char) : Bool := c != ';'

/-- Capture group of the decimal number \d+(?:\.\d+)? used by the
Diameter rules. -/
def numG : Rex.RE :=
  .grp 1 (.seq (plusCls MainPy.digitC)
    (.opt (.seq (litCI '.') (plusCls MainPy.digitC))))

/-- Capture group n of the decimal number \d+\.\d+ used by the Length
rules. -/
def decG (n : Nat) : Rex.RE :=
  .grp n (catList [plusCls MainPy.digitC, litCI '.', plusCls MainPy.digitC])

/-- First Grade rule: GRADE with optional separator and a captured word. -/
def gradeRule1 : Rex.RE × (PyMatch → String) :=
  (catList [strCI "GRADE", .starCls wsChar, .opt (.cls colonDashC),
    .starCls wsChar, .grp 1 (plusCls wordChar)],
   fun m => "GRADE :- " ++ m.group 1)

/-- Second Grade rule: the unspaced GRADE:- form. -/
def gradeRule2 : Rex.RE × (PyMatch → String) :=
  (catList [strCI "GRADE:-", .grp 1 (plusCls wordChar)],
   fun m => "GRADE:- " ++ m.group 1)

/-- Third Grade rule: the inline alternation FE_?500D, FE550D, 1860, 53. -/
def gradeRule3 : Rex.RE × (PyMatch → String) :=
  (.grp 1 (.alt (catList [strCI "FE", .opt (litCI '_'), strCI "500D"])
    (.alt (strCI "FE550D") (.alt (strCI "1860") (strCI "53")))),
   fun m => "Inline: \"" ++ m.group 1 ++ "\"")

/-- Fourth Grade rule: word-bounded 53, with a formatter that inspects the
full source string for the literal LOOSE. -/
def gradeRule4 : Rex.RE × (PyMatch → String) :=
  (catList [.bound, strCI "53", .bound],
   fun m => if MainPy.containsStr m.src "LOOSE" then "53 (inline)"
     else "53 (implied)")

/-- Grade rules in table order. -/
def gradeRules : List (Rex.RE × (PyMatch → String)) :=
  [gradeRule1, gradeRule2, gradeRule3, gradeRule4]

/-- Embedding of FIELD_RULES: ordered fields, each with its ordered
pattern-to-formatter rules, translated regex by regex from the table. -/
def FIELD_RULES : List (String × List (Rex.RE × (PyMatch → String))) :=
  [("Full Form",
    [(strCI "ORDINARY PORTLAND CEMENT",
      fun _ => "ORDINARY PORTLAND CEMENT (full form)"),
     (catList [.bound, strCI "OPC", .bound], fun _ => "OPC (abbreviated)"),
     (strCI "TMT", fun _ => "Abbreviated: \"TMT\""),
     (strCI "HT STEEL STRAND", fun _ => "Full form: \"HT STEEL STRAND\""),
     (strCI "LRPCF", fun _ => "Abbreviated: \"LRPCF\""),
     (strCI "RIB BAR", fun _ => "Abbreviated: RIB BAR + CRS")]),
   ("Grade", gradeRules),
   ("Form",
    [(catList [strCI "FORM", .starCls wsChar, .opt (.cls colonDashC),
        .starCls wsChar, .grp 1 (plusCls notSemiC)],
      fun m => "FORM :- " ++ strip (m.group 1)),
     (catList [strCI "FORM:-", .grp 1 (plusCls notSemiC)],
      fun m => "FORM:- " ++ strip (m.group 1)),
     (strCI "LOOSELOOSE", fun _ => "\"LOOSELOOSE\" (redundant)"),
     (strCI "LOOSE", fun _ => "LOOSE"),
     (strCI "BULK", fun _ => "FORM :- Bulk")]),
   ("Type",
    [(catList [strCI "TYPE", .starCls wsChar, .opt (.cls colonDashC),
        .starCls wsChar, .grp 1 (plusCls notSemiC)],
      fun m => "TYPE :- " ++ strip (m.group 1)),
     (catList [strCI "TYPE:-", .grp 1 (plusCls notSemiC)],
      fun m => "TYPE:- " ++ strip (m.group 1)),
     (catList [strCI "TYPE OF STRAND", .starCls wsChar, .opt (.cls colonDashC),
        .starCls wsChar, .grp 1 (plusCls notSemiC)],
      fun m => "TYPE OF STRAND :- " ++ strip (m.group 1)),
     (strCI "Corrosion resistant steel",
      fun _ => "TYPE:- Corrosion resistant steel (CRS)"),
     (strCI "Thermo mechanically treated",
      fun _ => "TYPE :- Thermo mechanically treated (TMT)"),
     (catList [strCI "TMT", .starCls dotChar, strCI "CRS"],
      fun _ => "TMT + CRS"),
     (catList [strCI "RIB BAR", .starCls dotChar, strCI "CRS"],
      fun _ => "RIB BAR + CRS")]),
   ("Diameter",
    [(catList [strCI "NOMINAL DIAMETER OF STRAND", .starCls wsChar,
        .opt (.cls colonDashC), .starCls wsChar, numG, .starCls wsChar,
        strCI "MM"],
      fun m => "NOMINAL DIAMETER :- " ++ m.group 1 ++ " mm"),
     (catList [strCI "DIAMETER", .starCls wsChar, .opt (.cls colonDashC),
        .starCls wsChar, numG, .starCls wsChar, strCI "MM"],
      fun m => "DIAMETER :- " ++ m.group 1 ++ " mm"),
     (catList [numG, .starCls wsChar, strCI "MM"],
      fun m => "Inline: \"" ++ m.group 1 ++ " mm\"")]),
   ("Length",
    [(catList [strCI "Length:", .starCls wsChar, decG 1, .starCls wsChar,
        strCI "M"],
      fun m => "clearly \"" ++ m.group 1 ++ " m\""),
     (catList [.grp 1 (plusCls MainPy.digitC), litCI '-', .bref 1,
        litCI '-', .bref 1, .starCls dotChar, strCI "Length:",
        .starCls wsChar, decG 2, .starCls wsChar, strCI "M"],
      fun m => "Repeated as \"" ++ m.group 1 ++ "\", clearly \"" ++
        m.group 2 ++ " m\""),
     (catList [.grp 1 (plusCls MainPy.digitC), litCI '-', .bref 1,
        litCI '-', .bref 1],
      fun m => "Repeated as \"" ++ m.group 1 ++ "\", clearly \"" ++
        m.group 1 ++ ".000 m\""),
     (catList [strCI "FORM", .starCls dotChar, strCI "Standard length"],
      fun _ => "FORM:- Straight bars (standard length)"),
     (catList [strCI "FORM", .starCls dotChar, strCI "Specific length"],
      fun _ => "FORM :- Straight bars (specific length)")]),
   ("Standard",
    [(catList [strCI "STANDARD", .starCls wsChar, .opt (.cls colonDashC),
        .starCls wsChar, .grp 1 (plusCls notSemiC)],
      fun m => if MainPy.containsStr m.src "STANDARD :-" then
          "STANDARD :- " ++ strip (m.group 1)
        else "STANDARD:- " ++ strip (m.group 1)),
     (strCI "IS 1786", fun _ => "STANDARD :- IS 1786"),
     (catList [strCI "BIS ", plusCls MainPy.digitC, litCI '_',
        plusCls MainPy.digitC],
      fun m => "Mentioned: BIS " ++ m.group 0)]),
   ("Structure",
    [(catList [litCI ';', .starCls dotChar, litCI ':', litCI '-'],
      fun _ => "Fully structured"),
     (catList [.bol, strCI "OPC", plusCls MainPy.digitC, .eol],
      fun _ => "Very short"),
     (catList [.bol, strCI "OPC", plusCls MainPy.digitC, plusCls wsChar,
        strCI "LOOSE", .eol],
      fun _ => "Short & inline"),
     (litCI '-', fun _ => "Coded inline"),
     (litCI '/', fun _ => "Mixed inline + natural language"),
     (.starCls dotChar, fun _ => "Unstructured free text")]),
   ("Extra Info",
    [(strCI "6C11M0007000000", fun _ => "Ends with code: 6C11M0007000000"),
     (strCI "Oiled.", fun _ => "\"Oiled.\" suffix"),
     (strCI "JVBTLCD201 P1", fun _ => "Codes: JVBTLCD201, P1"),
     (litCI ';', fun _ => "Not present")])]

/-- Inner loop of extract_details: scan the rules of one field in order
and return the formatter output of the first rule whose pattern matches. -/
def extract_field (search : Rex.RE → List Char → Option Rex.MRes) :
    List (Rex.RE × (PyMatch → String)) → List Char → Option String
  | [], _ => none
  | (p, f) :: rest, t =>
    match search p t with
    | some m => some (f ⟨t, m⟩)
    | none => extract_field search rest t

/-- Embedding of extract_details: one first-match value per field, fields
without a match omitted from the record. -/
def extract_details (search : Rex.RE → List Char → Option Rex.MRes)
    (table : List (String × List (Rex.RE × (PyMatch → String))))
    (t : List Char) : List (String × String) :=
  table.filterMap (fun fr => (extract_field search fr.2 t).map (fun v => (fr.1, v)))

/-- Python dict.get over the extracted record. -/
def dget (d : List (String × String)) (a : String) : Option String :=
  (d.find? (fun x => x.1 == a)).map (fun x => x.2)

end Iter1

/-- Unfolding of the rule scan on a cons cell. -/
theorem Iter1.extract_field_cons (search : Rex.RE → List Char → Option Rex.MRes)
    (r : Rex.RE × (Iter1.PyMatch → String))
    (rest : List (Rex.RE × (Iter1.PyMatch → String))) (t : List Char) :
    Iter1.extract_field search (r :: rest) t =
      match search r.1 t with
      | some m => some (r.2 ⟨t, m⟩)
      | none => Iter1.extract_field search rest t := by
  obtain ⟨p, f⟩ := r
  rfl

/-- A prefix of failing rules does not affect the scan. -/
theorem Iter1.extract_field_append_none
    {search : Rex.RE → List Char → Option Rex.MRes}
    {pre : List (Rex.RE × (Iter1.PyMatch → String))} {t : List Char}
    (h : ∀ q ∈ pre, search q.1 t = none)
    (l : List (Rex.RE × (Iter1.PyMatch → String))) :
    Iter1.extract_field search (pre ++ l) t = Iter1.extract_field search l t := by
  induction pre with
  | nil => rfl
  | cons r rest ih =>
    rw [List.cons_append, Iter1.extract_field_cons, h r (List.mem_cons_self _ _)]
    exact ih (fun q hq => h q (List.mem_cons_of_mem _ hq)) 

/-- When every rule fails the scan returns absence. -/
theorem Iter1.extract_field_none
    {search : Rex.RE → List Char → Option Rex.MRes}
    {rules : List (Rex.RE × (Iter1.PyMatch → String))} {t : List Char}
    (h : ∀ q ∈ rules, search q.1 t = none) :
    Iter1.extract_field search rules t = none := by
  induction rules with
  | nil => rfl
  | cons r rest ih =>
    rw [Iter1.extract_field_cons, h r (List.mem_cons_self _ _)]
    exact ih (fun q hq => h q (List.mem_cons_of_mem _ hq))

/-- Unfolding of the record construction on a cons cell. -/
theorem Iter1.extract_details_cons (search : Rex.RE → List Char → Option Rex.MRes)
    (fr : String × List (Rex.RE × (Iter1.PyMatch → String)))
    (table : List (String × List (Rex.RE × (Iter1.PyMatch → String))))
    (t : List Char) :
    Iter1.extract_details search (fr :: table) t =
      match Iter1.extract_field search fr.2 t with
      | some v => (fr.1, v) :: Iter1.extract_details search table t
      | none => Iter1.extract_details search table t := by
  unfold Iter1.extract_details
  rw [List.filterMap_cons]
  cases Iter1.extract_field search fr.2 t <;> rfl

/-- Unfolding of the dictionary lookup on a cons cell. -/
theorem Iter1.dget_cons (x : String × String) (d : List (String × String))
    (a : String) :
    Iter1.dget (x :: d) a = if x.1 == a then some x.2 else Iter1.dget d a := by
  unfold Iter1.dget
  cases hpx : x.1 == a <;> simp [List.find?, hpx]

/-- Records contain no entry for fields outside the table keys. -/
theorem Iter1.not_mem_keys_dget
    {search : Rex.RE → List Char → Option Rex.MRes}
    {t : List Char} {field : String} :
    ∀ table, field ∉ table.map Prod.fst →
      Iter1.dget (Iter1.extract_details search table t) field = none := by
  intro table
  induction table with
  | nil => intro _; rfl
  | cons fr rest ih =>
    intro h
    have hne : fr.1 ≠ field := by
      intro he
      exact h (by rw [List.map_cons, he]; exact List.mem_cons_self _ _)
    have hrest : field ∉ rest.map Prod.fst := by
      intro hm
      exact h (by rw [List.map_cons]; exact List.mem_cons_of_mem _ hm)
    cases he : Iter1.extract_field search fr.2 t with
    | some v =>
      simp only [Iter1.extract_details_cons, he]
      rw [Iter1.dget_cons]
      have hb : (fr.1 == field) = false := by
        simp [hne]
      rw [hb]
      simp only [Bool.false_eq_true, if_false]
      exact ih hrest
    | none =>
      simp only [Iter1.extract_details_cons, he]
      exact ih hrest

/-- The record lookup of a field equals the scan of its rule list, for any
table with distinct keys. -/
theorem Iter1.dget_extract (search : Rex.RE → List Char → Option Rex.MRes)
    (t : List Char) (field : String)
    (rules : List (Rex.RE × (Iter1.PyMatch → String))) :
    ∀ table, (field, rules) ∈ table → (table.map Prod.fst).Nodup →
      Iter1.dget (Iter1.extract_details search table t) field =
        Iter1.extract_field search rules t := by
  intro table
  induction table with
  | nil =>
    intro hmem _
    cases hmem
  | cons fr rest ih =>
    intro hmem hnd
    rw [List.map_cons, List.nodup_cons] at hnd
    rcases List.mem_cons.mp hmem with he | hm
    · subst he
      cases hev : Iter1.extract_field search rules t with
      | some v =>
        simp only [Iter1.extract_details_cons, hev]
        rw [Iter1.dget_cons]
        simp
      | none =>
        simp only [Iter1.extract_details_cons, hev]
        exact Iter1.not_mem_keys_dget rest hnd.1
    · have hne : fr.1 ≠ field := by
        intro he2
        apply hnd.1
        rw [he2]
        exact List.mem_map_of_mem Prod.fst hm
      cases hev : Iter1.extract_field search fr.2 t with
      | some v =>
        simp only [Iter1.extract_details_cons, hev]
        rw [Iter1.dget_cons]
        have hb : (fr.1 == field) = false := by
          simp [hne]
        rw [hb]
        simp only [Bool.false_eq_true, if_false]
        exact ih hm hnd.2
      | none =>
        simp only [Iter1.extract_details_cons, hev]
        exact ih hm hnd.2

/-- C2: first-match-wins dispatch of extract_details. For every search
function, input text and field of the rule table: when the rules split as a
failing prefix, a matching rule and an arbitrary tail, the extracted value
is the matching rule formatter output, and it does not depend on the rules
after the matching one; when every rule of the field fails, the field is
omitted from the record. -/
theorem c2_first_match_wins
    (search : Rex.RE → List Char → Option Rex.MRes) (t : List Char)
    (field : String) (rules : List (Rex.RE × (Iter1.PyMatch → String)))
    (hmem : (field, rules) ∈ Iter1.FIELD_RULES) :
    (∀ pre p f post m, rules = pre ++ (p, f) :: post →
      (∀ q ∈ pre, search q.1 t = none) → search p t = some m →
      Iter1.dget (Iter1.extract_details search Iter1.FIELD_RULES t) field =
        some (f ⟨t, m⟩) ∧
      ∀ post2, Iter1.extract_field search (pre ++ (p, f) :: post2) t =
        some (f ⟨t, m⟩)) ∧
    ((∀ q ∈ rules, search q.1 t = none) →
      Iter1.dget (Iter1.extract_details search Iter1.FIELD_RULES t) field =
        none) := by
  have hnd : (Iter1.FIELD_RULES.map Prod.fst).Nodup := by decide
  constructor
  · intro pre p f post m hre hpre hp
    have hfirst : ∀ post2, Iter1.extract_field search (pre ++ (p, f) :: post2) t
        = some (f ⟨t, m⟩) := by
      intro post2
      rw [Iter1.extract_field_append_none hpre, Iter1.extract_field_cons]
      simp [hp]
    constructor
    · rw [Iter1.dget_extract search t field rules Iter1.FIELD_RULES hmem hnd, hre]
      exact hfirst post
    · exact hfirst
  · intro hall
    rw [Iter1.dget_extract search t field rules Iter1.FIELD_RULES hmem hnd]
    exact Iter1.extract_field_none hall

/-- Witness for C2: on the text OPC53 the first two Grade rules fail, the
third matches, and the extracted Grade value is the third formatter output
independently of the fourth rule. -/
theorem c2_first_match_wins_witness :
    Rex.reSearch Iter1.gradeRule3.1 "OPC53".toList =
      some ⟨3, 5, [(1, 3, 5)]⟩ ∧
    Iter1.dget (Iter1.extract_details Rex.reSearch Iter1.FIELD_RULES
      "OPC53".toList) "Grade" =
      some (Iter1.gradeRule3.2 ⟨"OPC53".toList, ⟨3, 5, [(1, 3, 5)]⟩⟩) :=
  ⟨by decide,
    (((c2_first_match_wins Rex.reSearch "OPC53".toList "Grade"
        Iter1.gradeRules
        (by unfold Iter1.FIELD_RULES
            exact List.Mem.tail _ (List.Mem.head _))).1)
      [Iter1.gradeRule1, Iter1.gradeRule2] Iter1.gradeRule3.1
      Iter1.gradeRule3.2 [Iter1.gradeRule4] ⟨3, 5, [(1, 3, 5)]⟩ rfl
      (by decide) (by decide)).1⟩

/-- Scan step when the head rule fails. -/
theorem Iter1.extract_field_cons_none
    {search : Rex.RE → List Char → Option Rex.MRes}
    {r : Rex.RE × (Iter1.PyMatch → String)}
    {rest : List (Rex.RE × (Iter1.PyMatch → String))} {t : List Char}
    (h : search r.1 t = none) :
    Iter1.extract_field search (r :: rest) t =
      Iter1.extract_field search rest t := by
  rw [Iter1.extract_field_cons, h]

/-- Scan step when the head rule matches. -/
theorem Iter1.extract_field_cons_some
    {search : Rex.RE → List Char → Option Rex.MRes}
    {r : Rex.RE × (Iter1.PyMatch → String)}
    {rest : List (Rex.RE × (Iter1.PyMatch → String))} {t : List Char}
    {m : Rex.MRes} (h : search r.1 t = some m) :
    Iter1.extract_field search (r :: rest) t = some (r.2 ⟨t, m⟩) := by
  rw [Iter1.extract_field_cons, h]

/-- Any match of the fourth Grade rule contains a match of the inline 53
alternative of the third Grade rule at the same position. -/
theorem Iter1.rule4_implies_rule3 {t : List Char} {m : Rex.MRes}
    (h4 : Rex.reSearch Iter1.gradeRule4.1 t = some m) :
    (Rex.reSearch Iter1.gradeRule3.1 t).isSome = true := by
  rcases Rex.reSearch_sound h4 with ⟨i, hi, hm⟩
  have hbr4 : Rex.brFree Iter1.gradeRule4.1 = true := rfl
  rcases Rex.matAt_span hbr4 hm with ⟨hms, hmb⟩
  rcases Rex.matches_cat_cons.mp hmb with ⟨j1, hb1, hrest⟩
  rcases Rex.matches_bound_iff.mp hb1 with ⟨_, heq⟩
  rw [heq] at hrest
  rcases Rex.matches_cat_cons.mp hrest with ⟨j2, h53, hrest2⟩
  have hm3 : Rex.Matches t Iter1.gradeRule3.1 i j2 :=
    .grp (.altR (.altR (.altR h53)))
  exact Rex.reSearch_isSome_of hi
    ((Rex.matAt_isSome_iff
      (show Rex.brFree Iter1.gradeRule3.1 = true from rfl) t i).mpr ⟨j2, hm3⟩)

/-- Equal strings have equal first characters. -/
theorem Iter1.head_ne_of_eq {x y : String} (h : x = y) {c d : Char}
    (hx : x.data.head? = some c) (hy : y.data.head? = some d) : c = d := by
  rw [h] at hx
  rw [hx] at hy
  exact Option.some.inj hy

/-- C10: the fourth Grade rule is dead code: extract_details never returns
its formatter outputs for the Grade field, because any text where the
word-bounded 53 pattern matches contains the two characters 53, which the
inline alternation of the third rule already matches, and the third rule
precedes the fourth under first-match dispatch. The values of the first
three Grade formatters are distinguished from the fourth ones by their
first character. -/
theorem c10_grade_rule4_unreachable (t : List Char) :
    Iter1.dget (Iter1.extract_details Rex.reSearch Iter1.FIELD_RULES t)
      "Grade" ≠ some "53 (inline)" ∧
    Iter1.dget (Iter1.extract_details Rex.reSearch Iter1.FIELD_RULES t)
      "Grade" ≠ some "53 (implied)" := by
  have hnd : (Iter1.FIELD_RULES.map Prod.fst).Nodup := by decide
  have hmem : ("Grade", Iter1.gradeRules) ∈ Iter1.FIELD_RULES := by
    unfold Iter1.FIELD_RULES
    exact List.Mem.tail _ (List.Mem.head _)
  rw [Iter1.dget_extract Rex.reSearch t "Grade" Iter1.gradeRules
    Iter1.FIELD_RULES hmem hnd]
  rw [show Iter1.gradeRules = [Iter1.gradeRule1, Iter1.gradeRule2,
    Iter1.gradeRule3, Iter1.gradeRule4] from rfl]
  cases h1 : Rex.reSearch Iter1.gradeRule1.1 t with
  | some m =>
    rw [Iter1.extract_field_cons_some h1]
    constructor
    · intro hcon
      injection hcon with h2
      exact absurd (Iter1.head_ne_of_eq h2 rfl rfl) (by decide)
    · intro hcon
      injection hcon with h2
      exact absurd (Iter1.head_ne_of_eq h2 rfl rfl) (by decide)
  | none =>
    rw [Iter1.extract_field_cons_none h1]
    cases h2 : Rex.reSearch Iter1.gradeRule2.1 t with
    | some m =>
      rw [Iter1.extract_field_cons_some h2]
      constructor
      · intro hcon
        injection hcon with h3
        exact absurd (Iter1.head_ne_of_eq h3 rfl rfl) (by decide)
      · intro hcon
        injection hcon with h3
        exact absurd (Iter1.head_ne_of_eq h3 rfl rfl) (by decide)
    | none =>
      rw [Iter1.extract_field_cons_none h2]
      cases h3 : Rex.reSearch Iter1.gradeRule3.1 t with
      | some m =>
        rw [Iter1.extract_field_cons_some h3]
        constructor
        · intro hcon
          injection hcon with h4
          exact absurd (Iter1.head_ne_of_eq h4 rfl rfl) (by decide)
        · intro hcon
          injection hcon with h4
          exact absurd (Iter1.head_ne_of_eq h4 rfl rfl) (by decide)
      | none =>
        rw [Iter1.extract_field_cons_none h3]
        cases h4 : Rex.reSearch Iter1.gradeRule4.1 t with
        | some m =>
          exfalso
          have hcontra := Iter1.rule4_implies_rule3 h4
          rw [h3] at hcontra
          simp at hcontra
        | none =>
          rw [Iter1.extract_field_cons_none h4]
          constructor
          · intro hcon
            simp [Iter1.extract_field] at hcon
          · intro hcon
            simp [Iter1.extract_field] at hcon

/-- Witness for C10 at the concrete text of the test pair: the Grade value
is the inline annotation of the third rule, not a fourth-rule output. -/
theorem c10_grade_rule4_unreachable_witness :
    Iter1.dget (Iter1.extract_details Rex.reSearch Iter1.FIELD_RULES
      "OPC53 LOOSE".toList) "Grade" ≠ some "53 (inline)" :=
  (c10_grade_rule4_unreachable "OPC53 LOOSE".toList).1

/-- C5 counterexample: the claimed end-to-end outputs of the pair OPC53
versus the structured cement description do not hold: the OPC abbreviation
rule fails on OPC53 (no word boundary between C and 5), the first Grade
rule fails on GRADE :- 53 (the bracket class consumes at most one of the
two separator characters), and the first Form rule captures the hyphen, so
neither the claimed Grade values nor the claimed Form value appear. -/
theorem c5_scenario_counterexample :
    ¬(Iter1.dget (Iter1.extract_details Rex.reSearch Iter1.FIELD_RULES
        "OPC53".toList) "Full Form" = some "OPC (abbreviated)" ∧
      Iter1.dget (Iter1.extract_details Rex.reSearch Iter1.FIELD_RULES
        "OPC53".toList) "Grade" = some "53 (implied)" ∧
      Iter1.dget (Iter1.extract_details Rex.reSearch Iter1.FIELD_RULES
        "ORDINARY PORTLAND CEMENT; GRADE :- 53; FORM :- Bulk;".toList)
        "Grade" = some "GRADE :- 53" ∧
      Iter1.dget (Iter1.extract_details Rex.reSearch Iter1.FIELD_RULES
        "ORDINARY PORTLAND CEMENT; GRADE :- 53; FORM :- Bulk;".toList)
        "Form" = some "FORM :- Bulk") := by
  decide

/-- C5 amended: the actual extraction on the pair. String 1 has no Full
Form and no Form; both strings get the inline Grade annotation from the
third Grade rule; string 2 gets the full-form annotation and a Form value
that retains the unconsumed hyphen. -/
theorem c5_scenario_amended :
    Iter1.dget (Iter1.extract_details Rex.reSearch Iter1.FIELD_RULES
      "OPC53".toList) "Full Form" = none ∧
    Iter1.dget (Iter1.extract_details Rex.reSearch Iter1.FIELD_RULES
      "ORDINARY PORTLAND CEMENT; GRADE :- 53; FORM :- Bulk;".toList)
      "Full Form" = some "ORDINARY PORTLAND CEMENT (full form)" ∧
    Iter1.dget (Iter1.extract_details Rex.reSearch Iter1.FIELD_RULES
      "OPC53".toList) "Grade" = some "Inline: \"53\"" ∧
    Iter1.dget (Iter1.extract_details Rex.reSearch Iter1.FIELD_RULES
      "ORDINARY PORTLAND CEMENT; GRADE :- 53; FORM :- Bulk;".toList)
      "Grade" = some "Inline: \"53\"" ∧
    Iter1.dget (Iter1.extract_details Rex.reSearch Iter1.FIELD_RULES
      "OPC53".toList) "Form" = none ∧
    Iter1.dget (Iter1.extract_details Rex.reSearch Iter1.FIELD_RULES
      "ORDINARY PORTLAND CEMENT; GRADE :- 53; FORM :- Bulk;".toList)
      "Form" = some "FORM :- - Bulk" := by
  refine ⟨by decide, by decide, by decide, by decide, by decide, by decide⟩

namespace FinalIg

/-- Rule table of the final script; its source text is character for
character the same table as in iter1, so the embedding shares the one
definition. -/
def FIELD_RULES : List (String × List (Rex.RE × (Iter1.PyMatch → String))) :=
  Iter1.FIELD_RULES

/-- Embedding of the curated ASPECT_ORDER mapping. -/
def ASPECT_ORDER : List (Nat × List String) :=
  [(1, ["Full Form", "Grade", "Form", "Structure", "Extra Info"]),
   (2, ["Full Form", "Grade", "Diameter", "Extra Info", "Standard", "Type",
     "Structure"]),
   (3, ["Type", "Grade", "Diameter", "Length", "Extra Info", "Standard",
     "Structure"]),
   (4, ["Brand", "Type", "Grade", "Diameter", "Standard", "Structure"]),
   (5, ["Type", "Grade", "Diameter", "Length", "Standard", "Structure"]),
   (6, ["Type", "Grade", "Diameter", "Length", "Standard", "Structure"]),
   (7, ["Full Form", "Grade", "Form", "Structure"]),
   (8, ["Full Form", "Grade", "Form", "Structure"])]

/-- Dictionary lookup on the aspect-order mapping. -/
def lookupN (d : List (Nat × List String)) (n : Nat) : Option (List String) :=
  (d.find? (fun x => x.1 == n)).map (fun x => x.2)

/-- ASPECT_ORDER.get with the empty-list default. -/
def aspectsFor (n : Nat) : List String :=
  (lookupN ASPECT_ORDER n).getD []

/-- Report-building loop of compare_strings: substitute the sentinel for
absent values and skip any row where both sides are the sentinel. -/
def buildRows : List String → List (String × String) → List (String × String)
    → List (String × String × String)
  | [], _, _ => []
  | a :: rest, d1, d2 =>
    let v1 := (Iter1.dget d1 a).getD "Not mentioned"
    let v2 := (Iter1.dget d2 a).getD "Not mentioned"
    if v1 = "Not mentioned" ∧ v2 = "Not mentioned" then buildRows rest d1 d2
    else (a, v1, v2) :: buildRows rest d1 d2

/-- Embedding of compare_strings: extract both records and build the rows
of the curated order for the pair number. -/
def compare_strings_rows (s1 s2 : List Char) (n : Nat) :
    List (String × String × String) :=
  buildRows (aspectsFor n)
    (Iter1.extract_details Rex.reSearch FIELD_RULES s1)
    (Iter1.extract_details Rex.reSearch FIELD_RULES s2)

end FinalIg

/-- For records that never store the sentinel as a value, the rendered
value is the sentinel exactly when the field is absent. -/
theorem FinalIg.getD_sentinel_iff {d : List (String × String)} {a : String}
    (h : ∀ p ∈ d, p.2 ≠ "Not mentioned") :
    ((Iter1.dget d a).getD "Not mentioned" = "Not mentioned") ↔
      Iter1.dget d a = none := by
  cases hv : Iter1.dget d a with
  | none => simp
  | some v =>
    simp only [Option.getD_some]
    constructor
    · intro he
      exfalso
      unfold Iter1.dget at hv
      cases hf : d.find? (fun x => x.1 == a) with
      | none =>
        rw [hf] at hv
        simp at hv
      | some x =>
        rw [hf] at hv
        have hv2 : x.2 = v := Option.some.inj hv
        exact h x (List.mem_of_find?_eq_some hf) (by rw [hv2, he])
    · intro hc
      simp at hc

/-- C8: for every aspect order and every pair of extracted records (which
never store the sentinel as a value), the built table is exactly the rows
of the order whose aspect is present in at least one record, in order,
with the sentinel substituted on the absent side: a row appears if and
only if at least one side has a value, and rows where both sides are the
sentinel are dropped. -/
theorem c8_row_suppression (order : List String)
    (d1 d2 : List (String × String))
    (h1 : ∀ p ∈ d1, p.2 ≠ "Not mentioned")
    (h2 : ∀ p ∈ d2, p.2 ≠ "Not mentioned") :
    FinalIg.buildRows order d1 d2 =
      (order.filter (fun a => (Iter1.dget d1 a).isSome ||
          (Iter1.dget d2 a).isSome)).map
        (fun a => (a, (Iter1.dget d1 a).getD "Not mentioned",
          (Iter1.dget d2 a).getD "Not mentioned")) := by
  induction order with
  | nil => rfl
  | cons a rest ih =>
    rw [show FinalIg.buildRows (a :: rest) d1 d2 =
      (if (Iter1.dget d1 a).getD "Not mentioned" = "Not mentioned" ∧
          (Iter1.dget d2 a).getD "Not mentioned" = "Not mentioned" then
        FinalIg.buildRows rest d1 d2
      else (a, (Iter1.dget d1 a).getD "Not mentioned",
        (Iter1.dget d2 a).getD "Not mentioned") :: FinalIg.buildRows rest d1 d2)
      from rfl]
    by_cases hb : (Iter1.dget d1 a).getD "Not mentioned" = "Not mentioned" ∧
        (Iter1.dget d2 a).getD "Not mentioned" = "Not mentioned"
    · rw [if_pos hb]
      have hn1 := (FinalIg.getD_sentinel_iff h1).mp hb.1
      have hn2 := (FinalIg.getD_sentinel_iff h2).mp hb.2
      have hfc : (a :: rest).filter (fun a => (Iter1.dget d1 a).isSome ||
          (Iter1.dget d2 a).isSome) =
          rest.filter (fun a => (Iter1.dget d1 a).isSome ||
            (Iter1.dget d2 a).isSome) := by
        simp [List.filter_cons, hn1, hn2]
      rw [hfc]
      exact ih
    · rw [if_neg hb]
      have hpos : ((Iter1.dget d1 a).isSome ||
          (Iter1.dget d2 a).isSome) = true := by
        by_contra hcon
        simp only [Bool.or_eq_true, not_or, Bool.not_eq_true] at hcon
        apply hb
        constructor
        · apply (FinalIg.getD_sentinel_iff h1).mpr
          cases hx : Iter1.dget d1 a with
          | none => rfl
          | some v =>
            rw [hx] at hcon
            exact absurd hcon.1 (by simp)
        · apply (FinalIg.getD_sentinel_iff h2).mpr
          cases hx : Iter1.dget d2 a with
          | none => rfl
          | some v =>
            rw [hx] at hcon
            exact absurd hcon.2 (by simp)
      have hfc : (a :: rest).filter (fun a => (Iter1.dget d1 a).isSome ||
          (Iter1.dget d2 a).isSome) =
          a :: rest.filter (fun a => (Iter1.dget d1 a).isSome ||
            (Iter1.dget d2 a).isSome) := by
        simp [List.filter_cons, hpos]
      rw [hfc, List.map_cons, ih]

/-- Witness for C8 at a small concrete order and records: the row with a
value on one side is kept, the row absent from both records is dropped. -/
theorem c8_row_suppression_witness :
    FinalIg.buildRows ["Grade", "Form"] [("Grade", "g1")] [] =
      ((["Grade", "Form"]).filter (fun a =>
          (Iter1.dget [("Grade", "g1")] a).isSome ||
          (Iter1.dget ([] : List (String × String)) a).isSome)).map
        (fun a => (a, (Iter1.dget [("Grade", "g1")] a).getD "Not mentioned",
          (Iter1.dget ([] : List (String × String)) a).getD "Not mentioned")) :=
  c8_row_suppression ["Grade", "Form"] [("Grade", "g1")] []
    (by decide) (by decide)

/-- C9: an unrecognized pair identifier selects the empty aspect order and
the comparison still completes, producing a report with no field rows. -/
theorem c9_unknown_pair_empty (n : Nat) (s1 s2 : List Char)
    (h : FinalIg.lookupN FinalIg.ASPECT_ORDER n = none) :
    FinalIg.aspectsFor n = [] ∧ FinalIg.compare_strings_rows s1 s2 n = [] := by
  have ha : FinalIg.aspectsFor n = [] := by
    unfold FinalIg.aspectsFor
    rw [h]
    rfl
  refine ⟨ha, ?_⟩
  unfold FinalIg.compare_strings_rows
  rw [ha]
  rfl

/-- Witness for C9 at the concrete unrecognized pair number nine. -/
theorem c9_unknown_pair_empty_witness :
    FinalIg.aspectsFor 9 = [] ∧
    FinalIg.compare_strings_rows "a".toList "b".toList 9 = [] :=
  c9_unknown_pair_empty 9 "a".toList "b".toList (by decide)
